import Mathlib

/-! Qt music player: playlist and session controller.

A shallow embedding of `src/mainwindow.cpp` (class `MainWindow`).

* `QString` is a finite sequence of characters.
* The widgets (labels, table selection, icons, sliders) are not modelled.  The
  `QStandardItemModel` rows are changed by the source in lockstep with
  `playlistFullPaths` (every `appendRow`, `takeRow`, `insertRow`, `removeRow`,
  `removeRows` has the same operation on the path list next to it), so
  `model->rowCount()` is the length of the path list.
* The audio engine `sf::Music`, the file system and `QSettings` are external; they
  appear as the records `Music`, `Env` and `Settings`.
* Modal message boxes are recorded in the field `notices`.
* What the source leaves to a library without fixing the result is a field of `Env`:
  the order `std::sort` gives entries its comparator does not tell apart, the Unicode
  tables of `QString::toLower` and of the caseless match of PCRE2, and what `pause()`
  does to a stream that is not playing.  The conversion of a playing offset to `float`
  seconds and back is computed (`timeThroughSeconds`).
-/

namespace MusicPlayer

/-! ## Strings -/

/-- A `QString`, as the sequence of its characters. -/
abbrev QString := List Char

/-- `QChar::isSpace`: the ASCII white space characters, NEL, NBSP and the Unicode
separator categories Zs, Zl and Zp. -/
def isSpace (c : Char) : Bool :=
  let n := c.toNat
  n == 0x20 || (0x09 ≤ n && n ≤ 0x0d) || n == 0x85 || n == 0xa0 || n == 0x1680 ||
    (0x2000 ≤ n && n ≤ 0x200a) || n == 0x2028 || n == 0x2029 || n == 0x202f ||
    n == 0x205f || n == 0x3000

/-- `QString::trimmed`: white space removed from both ends. -/
def trimmed (s : QString) : QString :=
  (s.dropWhile isSpace).rdropWhile isSpace

/-- Lower-casing of the ASCII letters, other characters kept.  It stands for
`QString::toLower` in the extension test of `isSupportedAudio` only, where the result is
compared with the ASCII words `wav`, `ogg`, `flac`, `aiff` and `au`, for which the two
agree.  Where the lower-cased text itself matters (the sort of `loadFolder`),
`Env.toLower` is used. -/
def toLower (s : QString) : QString :=
  s.map Char.toLower

/-- `QString::indexOf(sep)`: the position of the first occurrence of `sep`, or `-1`. -/
def indexOf : QString → QString → Int
  | [], sep => if sep.isEmpty then 0 else -1
  | c :: cs, sep =>
    if sep.isPrefixOf (c :: cs) then 0
    else
      let r := indexOf cs sep
      if r < 0 then -1 else r + 1

/-- `QString::left(n)`: the first `n` characters; the whole string for `n < 0`. -/
def left (s : QString) (n : Int) : QString :=
  if n < 0 then s else s.take n.toNat

/-- `QString::mid(pos)`: the characters from `pos` on; empty past the end. -/
def mid (s : QString) (pos : Int) : QString :=
  if pos > s.length then [] else s.drop pos.toNat

/-- The UTF-16 code units of a character: one unit in the basic plane, a surrogate pair
beyond it. -/
def utf16Units (c : Char) : List Nat :=
  if c.toNat < 0x10000 then [c.toNat]
  else [0xD800 + (c.toNat - 0x10000) / 0x400, 0xDC00 + (c.toNat - 0x10000) % 0x400]

/-- The UTF-16 code units a `QString` consists of. -/
def codeUnits : QString → List Nat
  | [] => []
  | c :: cs => utf16Units c ++ codeUnits cs

/-- Lexicographic comparison of code unit sequences; a proper beginning comes first. -/
def unitsLess : List Nat → List Nat → Bool
  | _, [] => false
  | [], _ :: _ => true
  | a :: as, b :: bs =>
    if a < b then true
    else if b < a then false
    else unitsLess as bs

/-- `operator<` on `QString`: lexicographic comparison of the UTF-16 code units. -/
def qLess (a b : QString) : Bool :=
  unitsLess (codeUnits a) (codeUnits b)

/-- The text after the last occurrence of `c`; the whole text when `c` does not occur. -/
def afterLast (c : Char) : QString → QString
  | [] => []
  | x :: xs =>
    if c ∈ xs then afterLast c xs
    else if x = c then xs
    else x :: xs

/-- `QFileInfo::fileName`: the path without its directory part. -/
def fileName (path : QString) : QString :=
  afterLast '/' path

/-- `QFileInfo::suffix`: the text after the last dot of the file name, empty when the
file name has no dot. -/
def suffix (path : QString) : QString :=
  if '.' ∈ fileName path then afterLast '.' (fileName path) else []

/-! ## Filename parsing -/

/-- The hyphen separator. -/
def sepHyphen : QString := [' ', '-', ' ']

/-- The en dash separator (U+2013). -/
def sepEnDash : QString := [' ', Char.ofNat 0x2013, ' ']

/-- The em dash separator (U+2014). -/
def sepEmDash : QString := [' ', Char.ofNat 0x2014, ' ']

/-- The separator tokens of `parseArtistTitleFromFilename`, in the order they are tried. -/
def seps : List QString := [sepHyphen, sepEnDash, sepEmDash]

/-- The `for` loop of `parseArtistTitleFromFilename` over the remaining separators,
ending in the fall-through assignment `artist.clear(); title = s`.  The result is the
pair `(artist, title)`. -/
def parseLoop (s : QString) : List QString → QString × QString
  | [] => ([], s)
  | sep :: rest =>
    let p := indexOf s sep
    if p > 0 then
      let artist := trimmed (left s p)
      let title := trimmed (mid s (p + sep.length))
      if !title.isEmpty then (artist, title) else parseLoop s rest
    else parseLoop s rest

/-- `MainWindow::parseArtistTitleFromFilename`; the two out-parameters are returned as
the pair `(artist, title)`. -/
def parseArtistTitleFromFilename (fileNameNoExt : QString) : QString × QString :=
  parseLoop (trimmed fileNameNoExt) seps

/-! ## Supported types -/

/-- `MainWindow::isSupportedAudio`. -/
def isSupportedAudio (path : QString) : Bool :=
  let ext := toLower (suffix path)
  ext == "wav".toList || ext == "ogg".toList || ext == "flac".toList ||
    ext == "aiff".toList || ext == "au".toList

/-! ## External collaborators -/

/-- `sf::Sound::Status`. -/
inductive Status where
  | Stopped
  | Paused
  | Playing
  deriving DecidableEq, Repr

/-- A playing offset of the engine: an `sf::Time`, in whole microseconds. -/
abbrev Offset := Int

/-- The binary digits of `n` counted by halving, at most `fuel` of them. -/
def bitsAux : Nat → Nat → Nat
  | 0, _ => 0
  | fuel + 1, n => if n = 0 then 0 else bitsAux fuel (n / 2) + 1

/-- The number of binary digits of `n`; a number has no more digits than its value. -/
def bitLength (n : Nat) : Nat :=
  bitsAux n n

/-- The `float` nearest to the fraction `num / den` (IEEE 754 binary32: 24 significant
bits, ties to the even neighbour), as a fraction whose denominator is a power of two.
The range of the exponent is not modelled; the values met here lie far inside it. -/
def roundToFloat (num den : Nat) : Nat × Nat :=
  if num = 0 ∨ den = 0 then (0, 1)
  else
    let up := 24 + bitLength den - bitLength num
    let down := bitLength num - (24 + bitLength den)
    let n1 := num * 2 ^ up
    let d1 := den * 2 ^ down
    let wide := decide (2 ^ 24 ≤ n1 / d1)
    let d2 := if wide then 2 * d1 else d1
    let q := n1 / d2
    let r := n1 % d2
    let m := if d2 < 2 * r ∨ (2 * r = d2 ∧ q % 2 = 1) then q + 1 else q
    let down2 := if wide then down + 1 else down
    (m * 2 ^ down2, 2 ^ up)

/-- The microseconds of `sf::seconds(static_cast<float>(static_cast<double>(t.asSeconds())))`
for a time `t` of that many microseconds.  `asSeconds()` converts the count to `float`
and divides by `1000000.f`; the `double` holds that `float` unchanged; `sf::seconds`
multiplies by `1000000.f` and cuts the product to a whole number. -/
def microsThroughSeconds (t : Nat) : Nat :=
  let x := roundToFloat t 1
  let y := roundToFloat x.1 (x.2 * 1000000)
  let z := roundToFloat (y.1 * 1000000) y.2
  z.1 / z.2

/-- The time `sf::seconds` gives back for the seconds value `asSeconds()` of a time; the
conversions are symmetric in the sign. -/
def timeThroughSeconds (t : Offset) : Offset :=
  if 0 ≤ t then (microsThroughSeconds t.toNat : Int)
  else -(microsThroughSeconds (-t).toNat : Int)

/-- What the program observes of the file system, of the decoder and of the libraries it
calls.  The library parts are the ones that the source only calls and whose tables or
results are not fixed by it. -/
structure Env where
  /-- Whether a non-empty path names an existing file system entry. -/
  fileExists : QString → Bool
  /-- `QDirIterator(folder, QDir::Files)`: the files directly under a folder. -/
  dirFiles : QString → List QString
  /-- Whether `sf::Music::openFromFile` accepts the file. -/
  canOpen : QString → Bool
  /-- What `QString::toLower` puts in the place of a character outside ASCII (the Unicode
  tables of Qt; one character can become several). -/
  lowerNonAscii : Char → QString
  /-- Whether PCRE2 takes two different characters, not both ASCII, as the same character
  in a caseless match (its Unicode tables). -/
  caselessNonAscii : Char → Char → Bool
  /-- What `std::sort` leaves of a list for a comparator.  The standard promises a sorted
  rearrangement and nothing about the order of entries the comparator does not tell
  apart. -/
  stdSort : (QString → QString → Bool) → List QString → List QString
  /-- The status the engine has after `pause()` is called while it is not playing. -/
  pauseWhenIdle : Status → Status

/-- `QString::toLower`: ASCII letters are lower-cased, the other ASCII characters are
kept, and a character outside ASCII is replaced by what the tables of Qt give for it. -/
def Env.toLower (env : Env) : QString → QString
  | [] => []
  | c :: cs =>
    (if c.toNat < 128 then [c.toLower] else env.lowerNonAscii c) ++ Env.toLower env cs

/-- `QFileInfo::exists(path)`; it is `false` for the empty path. -/
def Env.qExists (env : Env) (path : QString) : Bool :=
  !path.isEmpty && env.fileExists path

/-- Modelled from the spec: the audio engine `sf::Music` (section 6, `open`, `play`,
`pause`, `stop`, `status`, `getOffset`, `setOffset`), of which only the calls are in the
source.  `opened` is the file the engine currently holds. -/
structure Music where
  status : Status
  opened : Option QString
  offset : Offset
  volume : Int
  deriving DecidableEq, Repr

/-- Modelled from the spec: `music.stop()`. -/
def Music.stop (m : Music) : Music :=
  { m with status := Status.Stopped, offset := 0 }

/-- Modelled from the spec: `music.play()`. -/
def Music.play (m : Music) : Music :=
  { m with status := Status.Playing }

/-- Modelled from the spec: `music.pause()`.  A playing engine becomes paused; what the
status is after a pause of an engine that is not playing is left to the engine. -/
def Music.pause (env : Env) (m : Music) : Music :=
  { m with
    status := if m.status = Status.Playing then Status.Paused else env.pauseWhenIdle m.status }

/-- Modelled from the spec: `music.setPlayingOffset(t)`. -/
def Music.setPlayingOffset (m : Music) (t : Offset) : Music :=
  { m with offset := t }

/-- Modelled from the spec: `music.openFromFile(path)`, `open(path) -> success|failure`.
A rejected file leaves the engine without an open file. -/
def Music.openFromFile (env : Env) (m : Music) (path : QString) : Bool × Music :=
  if env.canOpen path then
    (true, { m with status := Status.Stopped, opened := some path, offset := 0 })
  else
    (false, { m with status := Status.Stopped, opened := none, offset := 0 })

/-- The four `QSettings` keys under `player/`; `none` is an absent key.  The number under
`lastOffsetSeconds` is the seconds value `asSeconds()` of a playing offset; it is kept
here as the offset it was taken from, and the conversion to seconds and back is applied
where the number is read (`restoreLastSession`, `timeThroughSeconds`). -/
structure Settings where
  lastFolder : Option QString
  lastIndex : Option Int
  lastOffsetSeconds : Option Offset
  wasPlaying : Option Bool
  deriving DecidableEq, Repr

/-- A modal message box shown by the program. -/
inductive Notice where
  | noSupportedFiles (folder : QString)
  | someFilesIgnored (names : List QString)
  | couldntBeAdded (names : List QString)
  | fileMissing (path : QString)
  | playbackFailed (path : QString)
  | noSongs
  deriving DecidableEq, Repr

/-! ## The controller state -/

/-- The data members of `MainWindow` (widgets left out), the engine and the storage. -/
structure Player where
  playlistFullPaths : List QString
  currentIndex : Int
  userSeeking : Bool
  stoppedByUser : Bool
  wasPlaying : Bool
  lastLoadedFolder : QString
  tickCounter : Int
  music : Music
  settings : Settings
  notices : List Notice
  deriving DecidableEq, Repr

/-- A freshly constructed `MainWindow` over the given storage, before
`restoreLastSession` runs: the member initialisers of `mainwindow.h` and
`music.setVolume(70)`. -/
def fresh (st : Settings) : Player :=
  { playlistFullPaths := []
    currentIndex := -1
    userSeeking := false
    stoppedByUser := false
    wasPlaying := false
    lastLoadedFolder := []
    tickCounter := 0
    music := { status := Status.Stopped, opened := none, offset := 0, volume := 70 }
    settings := st
    notices := [] }

/-- `showError` and `QMessageBox::information`. -/
def Player.notify (s : Player) (n : Notice) : Player :=
  { s with notices := s.notices ++ [n] }

/-! ## Session persistence: saving -/

/-- `MainWindow::saveSession`. -/
def saveSession (s : Player) (force : Bool) : Player :=
  if s.lastLoadedFolder.isEmpty then s
  else
    let playing := decide (s.music.status = Status.Playing)
    if !force && !playing then s
    else
      { s with
        settings :=
          { lastFolder := some s.lastLoadedFolder
            lastIndex := some s.currentIndex
            lastOffsetSeconds := some s.music.offset
            wasPlaying := some playing } }

/-! ## Adding files -/

/-- The `for` loop of `MainWindow::addFiles` over the remaining paths; the accumulator is
`(playlistFullPaths, failedToAdd)`. -/
def addFilesLoop (env : Env) : List QString → List QString × List QString →
    List QString × List QString
  | [], acc => acc
  | fullPath :: rest, (playlist, failedToAdd) =>
    if !isSupportedAudio fullPath then addFilesLoop env rest (playlist, failedToAdd)
    else if playlist.contains fullPath then addFilesLoop env rest (playlist, failedToAdd)
    else if !env.qExists fullPath then
      addFilesLoop env rest (playlist, failedToAdd ++ [fileName fullPath])
    else addFilesLoop env rest (playlist ++ [fullPath], failedToAdd)

/-- `MainWindow::addFiles`. -/
def addFiles (env : Env) (s : Player) (filePaths : List QString) : Player :=
  let r := addFilesLoop env filePaths (s.playlistFullPaths, [])
  let s1 := { s with playlistFullPaths := r.1 }
  if !r.2.isEmpty then s1.notify (Notice.couldntBeAdded r.2) else s1

/-! ## Loading a folder -/

/-- The comparator handed to `std::sort` in `loadFolder`:
`a.toLower() < b.toLower()`. -/
def lowerLess (env : Env) (a b : QString) : Bool :=
  qLess (env.toLower a) (env.toLower b)

/-- `MainWindow::loadFolder`.  The `while (it.hasNext())` loop splits the listing into
the supported paths and the file names of the others. -/
def loadFolder (env : Env) (s : Player) (folderPath : QString) : Player :=
  let s1 : Player :=
    { s with
      lastLoadedFolder := folderPath
      stoppedByUser := true
      wasPlaying := false
      music := s.music.stop
      currentIndex := -1
      playlistFullPaths := [] }
  let supportedPaths := (env.dirFiles folderPath).filter isSupportedAudio
  let unsupportedNames :=
    ((env.dirFiles folderPath).filter (fun p => !isSupportedAudio p)).map fileName
  if supportedPaths.isEmpty then s1.notify (Notice.noSupportedFiles folderPath)
  else
    let s2 := addFiles env s1 (env.stdSort (lowerLess env) supportedPaths)
    let s3 :=
      if !unsupportedNames.isEmpty then
        s2.notify (Notice.someFilesIgnored (unsupportedNames.take 12))
      else s2
    if !s3.playlistFullPaths.isEmpty then { s3 with currentIndex := 0 } else s3

/-! ## Loading a track -/

/-- `MainWindow::loadIndex`; the result is the returned flag and the state after. -/
def loadIndex (env : Env) (s : Player) (sourceRow : Int) : Bool × Player :=
  if sourceRow < 0 ∨ sourceRow ≥ s.playlistFullPaths.length then (false, s)
  else
    let path := s.playlistFullPaths.getD sourceRow.toNat []
    if !env.qExists path then (false, s.notify (Notice.fileMissing path))
    else
      let s1 : Player := { s with music := s.music.stop, currentIndex := sourceRow }
      let r := s1.music.openFromFile env path
      if !r.1 then (false, { s1 with music := r.2 }.notify (Notice.playbackFailed path))
      else (true, { s1 with music := r.2 })

/-- The common tail `music.play(); stoppedByUser = false;` after a successful load. -/
def playLoaded (r : Bool × Player) : Player :=
  if r.1 then { r.2 with music := r.2.music.play, stoppedByUser := false } else r.2

/-- `MainWindow::onDoubleClick` on a valid index. -/
def onDoubleClick (env : Env) (s : Player) (sourceRow : Int) : Player :=
  playLoaded (loadIndex env s sourceRow)

/-! ## Controls -/

/-- `MainWindow::stop`. -/
def stop (s : Player) : Player :=
  saveSession { s with music := s.music.stop, stoppedByUser := true, wasPlaying := false } true

/-- `MainWindow::togglePlayPause`. -/
def togglePlayPause (env : Env) (s : Player) : Player :=
  if s.playlistFullPaths.isEmpty then s.notify Notice.noSongs
  else
    let r : Bool × Player := if s.currentIndex < 0 then loadIndex env s 0 else (true, s)
    if !r.1 then r.2
    else
      let s1 := r.2
      let s2 : Player :=
        if s1.music.status = Status.Playing then
          { s1 with music := s1.music.pause env, stoppedByUser := false }
        else
          { s1 with music := s1.music.play, stoppedByUser := false }
      saveSession s2 true

/-- `MainWindow::next`. -/
def next (env : Env) (s : Player) : Player :=
  if s.playlistFullPaths.isEmpty then s
  else
    let last : Int := (s.playlistFullPaths.length : Int) - 1
    let nxt := min (s.currentIndex + 1) last
    let r := loadIndex env s nxt
    if !r.1 then r.2 else saveSession (playLoaded r) true

/-- `MainWindow::prev`. -/
def prev (env : Env) (s : Player) : Player :=
  if s.playlistFullPaths.isEmpty then s
  else
    let prv := max (s.currentIndex - 1) 0
    let r := loadIndex env s prv
    if !r.1 then r.2 else saveSession (playLoaded r) true

/-- `MainWindow::seekPressed`. -/
def seekPressed (s : Player) : Player :=
  { s with userSeeking := true }

/-- `MainWindow::seekReleased`; `target` is `none` when the engine reports no duration
and otherwise the time `sf::seconds(target)` computed from the slider. -/
def seekReleased (s : Player) (target : Option Offset) : Player :=
  match target with
  | none => { s with userSeeking := false }
  | some t =>
    saveSession { s with music := s.music.setPlayingOffset t, userSeeking := false } true

/-- `MainWindow::volumeChanged`. -/
def volumeChanged (s : Player) (v : Int) : Player :=
  { s with music := { s.music with volume := v } }

/-- `MainWindow::closeEvent`. -/
def closeEvent (s : Player) : Player :=
  saveSession s true

/-! ## The context menu -/

/-- The entries of the context menu of a row. -/
inductive MenuAction where
  | actPlay
  | actPlayNext
  | actReveal
  | actRemove
  deriving DecidableEq, Repr

/-- The branch `chosen == actPlayNext` of `onContextMenu`. -/
def playNextBranch (s : Player) (sourceRow : Int) : Player :=
  if s.currentIndex < 0 then s
  else if sourceRow = s.currentIndex ∨ sourceRow = s.currentIndex + 1 then s
  else
    let path := s.playlistFullPaths.getD sourceRow.toNat []
    let taken := s.playlistFullPaths.eraseIdx sourceRow.toNat
    let insertPos : Int :=
      if s.currentIndex + 1 > taken.length then taken.length else s.currentIndex + 1
    { s with
      playlistFullPaths := taken.insertIdx insertPos.toNat path
      currentIndex := if sourceRow < s.currentIndex then s.currentIndex - 1 else s.currentIndex }

/-- The branch `chosen == actRemove` of `onContextMenu`. -/
def removeBranch (s : Player) (sourceRow : Int) : Player :=
  let s1 : Player :=
    if sourceRow = s.currentIndex then { stop s with currentIndex := -1 }
    else if sourceRow < s.currentIndex then { s with currentIndex := s.currentIndex - 1 }
    else s
  { s1 with playlistFullPaths := s1.playlistFullPaths.eraseIdx sourceRow.toNat }

/-- `MainWindow::onContextMenu` for the source row under the pointer and the chosen
entry. -/
def onContextMenu (env : Env) (s : Player) (sourceRow : Int) (chosen : MenuAction) : Player :=
  if sourceRow < 0 ∨ sourceRow ≥ s.playlistFullPaths.length then s
  else
    match chosen with
    | MenuAction.actPlay => playLoaded (loadIndex env s sourceRow)
    | MenuAction.actPlayNext => playNextBranch s sourceRow
    | MenuAction.actReveal => s
    | MenuAction.actRemove => removeBranch s sourceRow

/-! ## Timer tick -/

/-- The test that guards the auto-advance branch of `tick`, on the state in which
`wasPlaying` has already been updated from the status read. -/
def autoAdvanceFires (s : Player) : Bool :=
  (!s.playlistFullPaths.isEmpty && decide (s.currentIndex ≥ 0)) &&
    (decide (s.music.status = Status.Stopped) && !s.stoppedByUser && s.wasPlaying)

/-- The body of the auto-advance branch of `tick`. -/
def autoAdvance (env : Env) (s : Player) : Player :=
  let s1 : Player := { s with wasPlaying := false }
  if s1.currentIndex + 1 < s1.playlistFullPaths.length then
    let r := loadIndex env s1 (s1.currentIndex + 1)
    if r.1 then { r.2 with music := r.2.music.play }
    else { r.2 with stoppedByUser := true }
  else s1

/-- `MainWindow::tick`. -/
def tick (env : Env) (s : Player) : Player :=
  let s1 : Player :=
    if s.music.status = Status.Playing then { s with wasPlaying := true } else s
  let s2 := if autoAdvanceFires s1 then autoAdvance env s1 else s1
  let s3 : Player := { s2 with tickCounter := s2.tickCounter + 1 }
  if s3.tickCounter ≥ 5 then saveSession { s3 with tickCounter := 0 } false else s3

/-- The engine changes its status on its own (a track ends, a stream starts). -/
def engineStatus (st : Status) (s : Player) : Player :=
  { s with music := { s.music with status := st } }

/-- A timer tick at which `music.getStatus()` returns `st`. -/
def tickObserving (env : Env) (st : Status) (s : Player) : Player :=
  tick env (engineStatus st s)

/-- The state of a tick after its first two statements, `auto st = music.getStatus();`
`if (st == Playing) wasPlaying = true;`, when the status read is `st`. -/
def afterStatusRead (st : Status) (s : Player) : Player :=
  if st = Status.Playing then { engineStatus st s with wasPlaying := true }
  else engineStatus st s

/-- Whether the tick at which `music.getStatus()` returns `st` enters the auto-advance
branch: the test of `tick` on the state in which `wasPlaying` has been updated. -/
def tickFires (st : Status) (s : Player) : Bool :=
  autoAdvanceFires (afterStatusRead st s)

/-- A run of timer ticks with nothing else in between; each tick comes with the
environment found and the status read at that tick. -/
def runTicks : List (Env × Status) → Player → Player
  | [], s => s
  | t :: rest, s => runTicks rest (tickObserving t.1 t.2 s)

/-! ## Session persistence: restoring -/

/-- `MainWindow::restoreLastSession`.  The engine is handed
`sf::seconds(static_cast<float>(offset))` for the stored seconds value. -/
def restoreLastSession (env : Env) (s : Player) : Player :=
  let folder := s.settings.lastFolder.getD []
  let index := s.settings.lastIndex.getD (-1)
  let offset := s.settings.lastOffsetSeconds.getD 0
  let playNow := s.settings.wasPlaying.getD false
  if folder.isEmpty then s
  else if !env.qExists folder then s
  else
    let s1 := loadFolder env s folder
    if index ≥ 0 ∧ index < s1.playlistFullPaths.length then
      let r := loadIndex env s1 index
      if r.1 then
        let s2 : Player :=
          { r.2 with music := r.2.music.setPlayingOffset (timeThroughSeconds offset) }
        if playNow then { s2 with stoppedByUser := false, music := s2.music.play }
        else { s2 with music := s2.music.pause env }
      else r.2
    else s1

/-- The `MainWindow` constructor over the given storage. -/
def startup (env : Env) (st : Settings) : Player :=
  restoreLastSession env (fresh st)

/-! ## Reachable states -/

/-- The events the controller reacts to. -/
inductive Action where
  | loadFolder (folderPath : QString)
  | addFiles (filePaths : List QString)
  | loadIndex (sourceRow : Int)
  | doubleClick (sourceRow : Int)
  | contextMenu (sourceRow : Int) (chosen : MenuAction)
  | togglePlayPause
  | stop
  | next
  | prev
  | seekPressed
  | seekReleased (target : Option Offset)
  | volumeChanged (v : Int)
  | tick
  | engine (st : Status)
  | restoreLastSession
  | close

/-- The state after one event, in the environment found at that moment. -/
def step (env : Env) (s : Player) : Action → Player
  | Action.loadFolder folderPath => loadFolder env s folderPath
  | Action.addFiles filePaths => addFiles env s filePaths
  | Action.loadIndex sourceRow => (loadIndex env s sourceRow).2
  | Action.doubleClick sourceRow => onDoubleClick env s sourceRow
  | Action.contextMenu sourceRow chosen => onContextMenu env s sourceRow chosen
  | Action.togglePlayPause => togglePlayPause env s
  | Action.stop => stop s
  | Action.next => next env s
  | Action.prev => prev env s
  | Action.seekPressed => seekPressed s
  | Action.seekReleased target => seekReleased s target
  | Action.volumeChanged v => volumeChanged s v
  | Action.tick => tick env s
  | Action.engine st => engineStatus st s
  | Action.restoreLastSession => restoreLastSession env s
  | Action.close => closeEvent s

/-- The states reachable from a fresh controller (empty playlist, cursor `-1`) by any
sequence of events, the environment being arbitrary at each event. -/
inductive Reachable : Player → Prop where
  | init (st : Settings) : Reachable (fresh st)
  | step (env : Env) (a : Action) {s : Player} : Reachable s → Reachable (step env s a)

/-! ## Properties stated by the specification -/

/-- The cursor is `-1` or a valid index of the playlist. -/
def CursorOk (s : Player) : Prop :=
  s.currentIndex = -1 ∨ (0 ≤ s.currentIndex ∧ s.currentIndex < s.playlistFullPaths.length)

/-! ## Concrete data used in the examples -/

/-- Lower-casing of the letters of Latin-1 (U+00C0 to U+00DE without the multiplication
sign), used as the character tables of the example environments. -/
def latin1Lower (c : Char) : Char :=
  if 0xC0 ≤ c.toNat ∧ c.toNat ≤ 0xDE ∧ c.toNat ≠ 0xD7 then Char.ofNat (c.toNat + 0x20) else c

/-- A sort that meets the promise of `std::sort`: insertion sort by the comparator. -/
def insertionSortBy (cmp : QString → QString → Bool) (l : List QString) : List QString :=
  l.insertionSort (fun a b => cmp b a = false)

/-- An environment in which every file exists and is accepted by the engine, and every
folder lists `b.wav`, `a.wav` and `c.mp3`. -/
def demoEnv : Env :=
  { fileExists := fun _ => true
    dirFiles := fun _ => ["b.wav".toList, "a.wav".toList, "c.mp3".toList]
    canOpen := fun _ => true
    lowerNonAscii := fun c => [latin1Lower c]
    caselessNonAscii := fun a b => latin1Lower a == latin1Lower b
    stdSort := insertionSortBy
    pauseWhenIdle := fun _ => Status.Paused }

/-- An empty storage. -/
def noSettings : Settings :=
  { lastFolder := none, lastIndex := none, lastOffsetSeconds := none, wasPlaying := none }

/-- A controller holding four tracks, the third one loaded. -/
def demoPlayer : Player :=
  { fresh noSettings with
    playlistFullPaths := ["a.wav".toList, "b.wav".toList, "c.wav".toList, "d.wav".toList]
    currentIndex := 2 }

/-- The first occurrences of the entries of a list, in the order of the list. -/
def firstOccurrences : List QString → List QString
  | [] => []
  | x :: xs => x :: (firstOccurrences xs).filter (fun y => y != x)

/-- The paths of a batch that `addFiles` is to append to the playlist `P`: supported
extension, not already in the playlist, existing on disk. -/
def toBeAdded (env : Env) (P : List QString) (p : QString) : Bool :=
  isSupportedAudio p && !P.contains p && env.qExists p

/-- The paths of a batch that `addFiles` is to report as failed: supported extension, not
in the playlist, not existing on disk. -/
def toBeReported (env : Env) (P : List QString) (p : QString) : Bool :=
  isSupportedAudio p && !P.contains p && !env.qExists p

/-- The supported extensions, lower-cased. -/
def supportedExtensions : List QString :=
  ["wav".toList, "ogg".toList, "flac".toList, "aiff".toList, "au".toList]

/-- An environment like `demoEnv` in which the file `gone.wav` does not exist. -/
def demoEnvMissing : Env :=
  { demoEnv with fileExists := fun p => p != "gone.wav".toList }

/-- An environment whose folders list `c.flac`, `b.wav`, `notes.txt` and `a.ogg`, all
existing and accepted by the engine. -/
def sessionEnv : Env :=
  { demoEnv with
    dirFiles := fun _ =>
      ["c.flac".toList, "b.wav".toList, "notes.txt".toList, "a.ogg".toList] }

/-- A controller that has loaded the folder `music` and is playing its third track at
37.5 seconds. -/
def sessionPlayer : Player :=
  { fresh noSettings with
    lastLoadedFolder := "music".toList
    playlistFullPaths := ["a.ogg".toList, "b.wav".toList, "c.flac".toList]
    currentIndex := 2
    music :=
      { status := Status.Playing, opened := some "c.flac".toList, offset := 37500000,
        volume := 70 } }

/-- The controller `sessionPlayer` one microsecond later: playing at 37.500001 seconds. -/
def offBeatPlayer : Player :=
  { sessionPlayer with music := { sessionPlayer.music with offset := 37500001 } }

/-- An environment like `demoEnv` in which the folder `old` lists `old/x.wav` and every
other folder lists `new/y.wav`. -/
def twoFolderEnv : Env :=
  { demoEnv with
    dirFiles := fun F => if F = "old".toList then ["old/x.wav".toList] else ["new/y.wav".toList] }

/-- A controller that has loaded the folder `old` and plays its track after a double
click on row 0. -/
def oldFolderPlayer : Player :=
  step twoFolderEnv (step twoFolderEnv (fresh noSettings) (Action.loadFolder "old".toList))
    (Action.doubleClick 0)

/-- When there is a cursor, the track at the cursor is the one open in the engine. -/
def CursorMatchesEngine (s : Player) : Prop :=
  0 ≤ s.currentIndex → s.music.opened = s.playlistFullPaths[s.currentIndex.toNat]?

/-! ## Lyrics -/

/-- The class `\d` of the pattern: an ASCII digit (the pattern is compiled without the
Unicode properties option). -/
def isDigit (c : Char) : Bool :=
  '0'.toNat ≤ c.toNat && c.toNat ≤ '9'.toNat

/-- One literal character of the pattern, matched at the start of `s`: the text after it. -/
def lit (c : Char) (s : QString) : Option QString :=
  match s with
  | [] => none
  | x :: r => if x = c then some r else none

/-- The item `\d{1,2}` followed by the rest `k` of the pattern: two digits are tried first,
then one. -/
def digits12 (k : QString → Option QString) (s : QString) : Option QString :=
  match s with
  | [] => none
  | a :: r =>
    if isDigit a then
      match r with
      | [] => k []
      | b :: r2 =>
        if isDigit b then
          match k r2 with
          | some out => some out
          | none => k (b :: r2)
        else k (b :: r2)
    else none

/-- The item `\d{2}` followed by the rest `k` of the pattern. -/
def digits2 (k : QString → Option QString) (s : QString) : Option QString :=
  match s with
  | a :: b :: r => if isDigit a && isDigit b then k r else none
  | _ => none

/-- The optional group `(\.\d{1,2})?` followed by `\]`: the group is tried first. -/
def fractionAndClose (s : QString) : Option QString :=
  match (lit '.' s).bind (digits12 (lit ']')) with
  | some out => some out
  | none => lit ']' s

/-- The pattern `\[\d{1,2}:\d{2}(\.\d{1,2})?\]` of `cleanLyricsText`, matched at the start
of `s`: the text after the match, or `none`. -/
def matchTag (s : QString) : Option QString :=
  (lit '[' s).bind (digits12 (fun s1 => (lit ':' s1).bind (digits2 fractionAndClose)))

/-- `QString::remove(re)` for the tag pattern: the text is scanned from left to right and
every match found is left out, the scan going on right after it.  `skip` counts the
characters of the current match that are still to be dropped. -/
def removeTagsFrom : Nat → QString → QString
  | _, [] => []
  | skip + 1, _ :: cs => removeTagsFrom skip cs
  | 0, c :: cs =>
    match matchTag (c :: cs) with
    | some rest => removeTagsFrom ((c :: cs).length - rest.length - 1) cs
    | none => c :: removeTagsFrom 0 cs

/-- `MainWindow::cleanLyricsText`. -/
def cleanLyricsText (s : QString) : QString :=
  removeTagsFrom 0 s
/-- One or two digits. -/
def IsDigits12 (m : QString) : Prop :=
  (m.length = 1 ∨ m.length = 2) ∧ ∀ c ∈ m, isDigit c = true

/-- A well-formed timestamp tag: `[`, 1-2 digits, `:`, 2 digits, optionally `.` and 1-2
digits, `]`. -/
def IsTag (t : QString) : Prop :=
  ∃ m ss f : QString,
    IsDigits12 m ∧ (ss.length = 2 ∧ ∀ c ∈ ss, isDigit c = true) ∧
      (f = [] ∨ ∃ d, IsDigits12 d ∧ f = '.' :: d) ∧
      t = '[' :: m ++ ':' :: ss ++ f ++ [']']

/-- The text has a substring that is a well-formed timestamp tag. -/
def ContainsTag (s : QString) : Prop :=
  ∃ pre t post : QString, IsTag t ∧ s = pre ++ t ++ post

/-- A piece of a lyrics text: a segment of plain text or a timestamp tag. -/
inductive Piece where
  | segment (text : QString)
  | tag (text : QString)

/-- The characters of a piece. -/
def Piece.text : Piece → QString
  | Piece.segment t => t
  | Piece.tag t => t

/-- A segment holds no `[`; a tag is a well-formed timestamp tag. -/
def Piece.WellFormed : Piece → Prop
  | Piece.segment t => '[' ∉ t
  | Piece.tag t => IsTag t

/-- The text made of the pieces in order. -/
def piecesText : List Piece → QString
  | [] => []
  | p :: ps => p.text ++ piecesText ps

/-- The segments of the pieces in order, the tags left out. -/
def piecesSegments : List Piece → QString
  | [] => []
  | Piece.segment t :: ps => t ++ piecesSegments ps
  | Piece.tag _ :: ps => piecesSegments ps
/-- The lyrics text of the specification, `[01:23.45]Hello`, line break, `[2:00]World`,
as pieces. -/
def demoLyrics : List Piece :=
  [Piece.tag "[01:23.45]".toList, Piece.segment "Hello\n".toList,
    Piece.tag "[2:00]".toList, Piece.segment "World".toList]

/-! ## Search filter -/

/-- A row of the source model: the columns title, artist, lyrics (hidden) and path
(hidden). -/
structure Row where
  title : QString
  artist : QString
  lyrics : QString
  path : QString
  deriving DecidableEq, Repr

/-- A `QRegularExpression` as far as the program uses one: the pattern string and whether
`CaseInsensitiveOption` is set. -/
structure QRegularExpression where
  pattern : QString
  caseInsensitive : Bool
  deriving DecidableEq, Repr

/-- The characters `QRegularExpression::escape` leaves as they are: ASCII letters, digits
and the underscore. -/
def isWordChar (c : Char) : Bool :=
  c.isAlphanum || c == '_'

/-- `QRegularExpression::escape`: a backslash is put before every character other than a
letter, a digit or the underscore; the null character becomes a backslash and `0`. -/
def escape : QString → QString
  | [] => []
  | c :: cs =>
    (if c.toNat = 0 then [Char.ofNat 92, '0']
      else if isWordChar c then [c]
      else [Char.ofNat 92, c]) ++ escape cs

/-- An octal digit, `0` to `7`. -/
def isOctalDigit (c : Char) : Bool :=
  '0'.toNat ≤ c.toNat && c.toNat ≤ '7'.toNat

/-- Where the reading of a pattern stands: between items, right after a backslash, or
inside the octal code that a backslash and `0` begin, with the code read so far and the
number of digits that may still follow. -/
inductive ReadState where
  | plain
  | afterBackslash
  | octal (code : Nat) (left : Nat)

/-- The characters a pattern asks for one after the other, as PCRE2 reads the patterns
that `escape` writes: a letter, digit or underscore stands for itself; a backslash before
a character that is not an ASCII letter or digit makes that character stand for itself;
a backslash and `0` begin an octal code of up to two further octal digits and stand for
the character of that code.  Every other pattern (an operator that is not escaped, a
backslash before another letter or digit, a backslash at the end) is outside of what
`escape` writes and is left unread, `none`. -/
def readFrom : ReadState → QString → Option (List Char)
  | ReadState.plain, [] => some []
  | ReadState.afterBackslash, [] => none
  | ReadState.octal code _, [] => some [Char.ofNat code]
  | ReadState.plain, c :: cs =>
    if c = Char.ofNat 92 then readFrom ReadState.afterBackslash cs
    else if isWordChar c then (readFrom ReadState.plain cs).map (fun l => c :: l)
    else none
  | ReadState.afterBackslash, c :: cs =>
    if c = '0' then readFrom (ReadState.octal 0 2) cs
    else if c.isAlphanum then none
    else (readFrom ReadState.plain cs).map (fun l => c :: l)
  | ReadState.octal code left, c :: cs =>
    if 0 < left ∧ isOctalDigit c = true then
      readFrom (ReadState.octal (8 * code + (c.toNat - '0'.toNat)) (left - 1)) cs
    else
      (if c = Char.ofNat 92 then readFrom ReadState.afterBackslash cs
        else if isWordChar c then (readFrom ReadState.plain cs).map (fun l => c :: l)
        else none).map (fun l => Char.ofNat code :: l)

/-- Whether a caseless match of PCRE2 takes the two characters as the same: equal
characters, ASCII letters that differ in case only, and, where a character outside ASCII
is involved, what the tables of PCRE2 say. -/
def Env.caseless (env : Env) (a b : Char) : Bool :=
  a == b ||
    (if a.toNat < 128 ∧ b.toNat < 128 then a.toLower == b.toLower
      else env.caselessNonAscii a b)

/-- Whether a character of the text is the one the pattern asks for, with or without
regard to case. -/
def sameChar (env : Env) (caseInsensitive : Bool) (a b : Char) : Bool :=
  if caseInsensitive then env.caseless a b else a == b

/-- Whether the text begins with the characters the pattern asks for. -/
def matchesAt (env : Env) (caseInsensitive : Bool) : List Char → QString → Bool
  | [], _ => true
  | _ :: _, [] => false
  | p :: ps, c :: cs => sameChar env caseInsensitive p c && matchesAt env caseInsensitive ps cs

/-- Whether the pattern matches at some position of the text. -/
def matchesIn (env : Env) (caseInsensitive : Bool) (items : List Char) : QString → Bool
  | [] => matchesAt env caseInsensitive items []
  | c :: cs =>
    matchesAt env caseInsensitive items (c :: cs) || matchesIn env caseInsensitive items cs

/-- `QRegularExpression::isValid`, for the patterns that are read; the patterns the
program builds are all read (`escape_readable`). -/
def QRegularExpression.isValid (re : QRegularExpression) : Bool :=
  (readFrom ReadState.plain re.pattern).isSome

/-- `text.contains(re)`: whether the expression matches somewhere in the text. -/
def contains (env : Env) (text : QString) (re : QRegularExpression) : Bool :=
  match readFrom ReadState.plain re.pattern with
  | none => false
  | some items => matchesIn env re.caseInsensitive items text

/-- `TrackFilterModel::filterAcceptsRow` for the filter expression of the proxy and a row
of the source model; the loop runs over the columns title, artist and lyrics. -/
def filterAcceptsRow (env : Env) (re : QRegularExpression) (row : Row) : Bool :=
  if !re.isValid || re.pattern.isEmpty then true
  else [row.title, row.artist, row.lyrics].any (fun text => contains env text re)

/-- The table: the controller, the rows of the source model and the filter expression
held by the proxy model. -/
structure Window where
  player : Player
  rows : List Row
  filter : QRegularExpression

/-- The `textChanged` handler of the search box set up in the constructor: the filter
becomes `QRegularExpression(QRegularExpression::escape(text), CaseInsensitiveOption)`. -/
def searchTextChanged (w : Window) (text : QString) : Window :=
  { w with filter := { pattern := escape text, caseInsensitive := true } }

/-- The rows the proxy model shows, in the order of the source model. -/
def visibleRows (env : Env) (w : Window) : List Row :=
  w.rows.filter (filterAcceptsRow env w.filter)

/-- The words of the specification: two characters are the same when case is not
regarded; for two ASCII characters that is the same lower-case form, and otherwise what
the Unicode tables say. -/
def SameIgnoringCase (env : Env) (a b : Char) : Prop :=
  a = b ∨ (a.toNat < 128 ∧ b.toNat < 128 ∧ a.toLower = b.toLower) ∨
    (¬ (a.toNat < 128 ∧ b.toNat < 128) ∧ env.caselessNonAscii a b = true)

/-- The words of the specification: `q` occurs in `t` as a literal string, the characters
compared without regard to case. -/
def OccursCaseless (env : Env) (q t : QString) : Prop :=
  ∃ pre sub post, t = pre ++ sub ++ post ∧ List.Forall₂ (SameIgnoringCase env) q sub

/-- Whether somewhere in the text a null character is directly followed by an octal
digit. -/
def nullBeforeOctal : QString → Bool
  | [] => false
  | a :: rest =>
    (a.toNat = 0 && (match rest with
      | [] => false
      | b :: _ => isOctalDigit b)) || nullBeforeOctal rest

/-- A table of three rows over the demo controller, with the default filter expression
(no search text yet). -/
def demoWindow : Window :=
  { player := demoPlayer
    rows :=
      [{ title := "One More Time".toList, artist := "Daft Punk".toList,
          lyrics := "music has got me feeling so free".toList, path := "a.wav".toList },
        { title := "b".toList, artist := [], lyrics := [], path := "punk/b.wav".toList },
        { title := [Char.ofNat 0xC9] ++ "mile".toList, artist := "Zaz".toList, lyrics := [],
          path := "c.wav".toList }]
    filter := { pattern := [], caseInsensitive := false } }

/-- A row whose title is the single character U+0001. -/
def controlRow : Row :=
  { title := [Char.ofNat 1], artist := [], lyrics := [], path := "d.wav".toList }

/-- A row whose title is the null character followed by the digit `1`. -/
def nullRow : Row :=
  { title := [Char.ofNat 0, '1'], artist := [], lyrics := [], path := "e.wav".toList }

/-! ## Frame lemmas -/

theorem saveSession_playlist (s : Player) (f : Bool) :
    (saveSession s f).playlistFullPaths = s.playlistFullPaths := by
  unfold saveSession; dsimp only; split_ifs <;> rfl

theorem saveSession_currentIndex (s : Player) (f : Bool) :
    (saveSession s f).currentIndex = s.currentIndex := by
  unfold saveSession; dsimp only; split_ifs <;> rfl

theorem saveSession_music (s : Player) (f : Bool) :
    (saveSession s f).music = s.music := by
  unfold saveSession; dsimp only; split_ifs <;> rfl

theorem saveSession_wasPlaying (s : Player) (f : Bool) :
    (saveSession s f).wasPlaying = s.wasPlaying := by
  unfold saveSession; dsimp only; split_ifs <;> rfl

theorem saveSession_stoppedByUser (s : Player) (f : Bool) :
    (saveSession s f).stoppedByUser = s.stoppedByUser := by
  unfold saveSession; dsimp only; split_ifs <;> rfl

theorem saveSession_lastLoadedFolder (s : Player) (f : Bool) :
    (saveSession s f).lastLoadedFolder = s.lastLoadedFolder := by
  unfold saveSession; dsimp only; split_ifs <;> rfl

/-! ## C1: Play Next -/

/-- C1, evaluated on the code: with the playlist `a.wav, b.wav, c.wav, d.wav` and
`c.wav` loaded (cursor 2), Play Next on row 0 leaves the playlist
`b.wav, c.wav, d.wav, a.wav` with cursor 1; the entry right after the cursor is `d.wav`,
and the moved `a.wav` sits two places after the loaded track. -/
theorem playNext_from_before_cursor_lands_two_after :
    (onContextMenu demoEnv demoPlayer 0 MenuAction.actPlayNext).playlistFullPaths
      = ["b.wav".toList, "c.wav".toList, "d.wav".toList, "a.wav".toList] ∧
    (onContextMenu demoEnv demoPlayer 0 MenuAction.actPlayNext).currentIndex = 1 ∧
    (onContextMenu demoEnv demoPlayer 0 MenuAction.actPlayNext).playlistFullPaths[
        ((onContextMenu demoEnv demoPlayer 0 MenuAction.actPlayNext).currentIndex + 1).toNat]?
      = some "d.wav".toList ∧
    (onContextMenu demoEnv demoPlayer 0 MenuAction.actPlayNext).playlistFullPaths[
        ((onContextMenu demoEnv demoPlayer 0 MenuAction.actPlayNext).currentIndex + 2).toNat]?
      = some "a.wav".toList := by
  decide

/-! ## C2: Remove from Playlist -/

/-- C2: for a cursor in `[-1, length)` and a row in `[0, length)`, Remove from Playlist
leaves the playlist with exactly the entry at the row erased; when the row is the cursor
the engine is stopped and the cursor becomes `-1`; otherwise a cursor `-1` stays `-1` and
a cursor `>= 0` becomes `c-1` for a row before it and stays `c` for a row after it, and
indexes the same path as before. -/
theorem remove_spec (env : Env) (s : Player) (r : Int)
    (hc : -1 ≤ s.currentIndex ∧ s.currentIndex < s.playlistFullPaths.length)
    (hr : 0 ≤ r ∧ r < s.playlistFullPaths.length) :
    (onContextMenu env s r MenuAction.actRemove).playlistFullPaths
        = s.playlistFullPaths.eraseIdx r.toNat ∧
    (r = s.currentIndex →
      (onContextMenu env s r MenuAction.actRemove).music.status = Status.Stopped ∧
      (onContextMenu env s r MenuAction.actRemove).currentIndex = -1) ∧
    (r ≠ s.currentIndex →
      (s.currentIndex = -1 →
        (onContextMenu env s r MenuAction.actRemove).currentIndex = -1) ∧
      (0 ≤ s.currentIndex →
        (onContextMenu env s r MenuAction.actRemove).currentIndex
          = (if r < s.currentIndex then s.currentIndex - 1 else s.currentIndex) ∧
        0 ≤ (onContextMenu env s r MenuAction.actRemove).currentIndex ∧
        (onContextMenu env s r MenuAction.actRemove).playlistFullPaths[
            (onContextMenu env s r MenuAction.actRemove).currentIndex.toNat]?
          = s.playlistFullPaths[s.currentIndex.toNat]?)) := by
  obtain ⟨hc1, hc2⟩ := hc
  obtain ⟨hr1, hr2⟩ := hr
  have hg : ¬ (r < 0 ∨ r ≥ s.playlistFullPaths.length) := by omega
  simp only [onContextMenu, hg, if_false, removeBranch]
  by_cases h1 : r = s.currentIndex
  · simp [h1, stop, saveSession_playlist, saveSession_music, Music.stop]
  · by_cases h2 : r < s.currentIndex
    · simp only [h1, h2, if_false, if_true]
      refine ⟨trivial, fun h => absurd h (by simp),
        fun _ => ⟨fun h => by omega, fun h => ⟨trivial, by omega, ?_⟩⟩⟩
      rw [List.getElem?_eraseIdx_of_ge]
      · congr 1; omega
      · omega
    · simp only [h1, h2, if_false]
      refine ⟨trivial, fun h => absurd h (by simp),
        fun _ => ⟨fun h => h, fun h => ⟨trivial, h, ?_⟩⟩⟩
      rw [List.getElem?_eraseIdx_of_lt]
      omega

/-- C2 at a concrete input: removing row 0 of the four-track playlist with cursor 2. -/
theorem remove_spec_witness :
    ((-1 ≤ demoPlayer.currentIndex ∧
        demoPlayer.currentIndex < demoPlayer.playlistFullPaths.length) ∧
      ((0 : Int) ≤ 0 ∧ (0 : Int) < demoPlayer.playlistFullPaths.length)) ∧
    (onContextMenu demoEnv demoPlayer 0 MenuAction.actRemove).playlistFullPaths
        = demoPlayer.playlistFullPaths.eraseIdx (0 : Int).toNat ∧
    ((0 : Int) = demoPlayer.currentIndex →
      (onContextMenu demoEnv demoPlayer 0 MenuAction.actRemove).music.status = Status.Stopped ∧
      (onContextMenu demoEnv demoPlayer 0 MenuAction.actRemove).currentIndex = -1) ∧
    ((0 : Int) ≠ demoPlayer.currentIndex →
      (demoPlayer.currentIndex = -1 →
        (onContextMenu demoEnv demoPlayer 0 MenuAction.actRemove).currentIndex = -1) ∧
      (0 ≤ demoPlayer.currentIndex →
        (onContextMenu demoEnv demoPlayer 0 MenuAction.actRemove).currentIndex
          = (if (0 : Int) < demoPlayer.currentIndex then demoPlayer.currentIndex - 1
              else demoPlayer.currentIndex) ∧
        0 ≤ (onContextMenu demoEnv demoPlayer 0 MenuAction.actRemove).currentIndex ∧
        (onContextMenu demoEnv demoPlayer 0 MenuAction.actRemove).playlistFullPaths[
            (onContextMenu demoEnv demoPlayer 0 MenuAction.actRemove).currentIndex.toNat]?
          = demoPlayer.playlistFullPaths[demoPlayer.currentIndex.toNat]?)) :=
  ⟨⟨by decide, by decide⟩, remove_spec demoEnv demoPlayer 0 (by decide) (by decide)⟩

/-! ## Helper lemmas on the operations -/

theorem notify_playlist (s : Player) (n : Notice) :
    (s.notify n).playlistFullPaths = s.playlistFullPaths := rfl

theorem notify_currentIndex (s : Player) (n : Notice) :
    (s.notify n).currentIndex = s.currentIndex := rfl

theorem addFilesLoop_extends (env : Env) (paths : List QString) :
    ∀ acc : List QString × List QString,
      ∃ added, (addFilesLoop env paths acc).1 = acc.1 ++ added := by
  induction paths with
  | nil => intro acc; exact ⟨[], by simp [addFilesLoop]⟩
  | cons p rest ih =>
    rintro ⟨pl, failed⟩
    simp only [addFilesLoop]
    split_ifs
    · exact ih _
    · exact ih _
    · exact ih _
    · obtain ⟨added, h⟩ := ih (pl ++ [p], failed)
      exact ⟨p :: added, by simp [h]⟩

theorem addFilesLoop_nodup (env : Env) (paths : List QString) :
    ∀ acc : List QString × List QString,
      acc.1.Nodup → (addFilesLoop env paths acc).1.Nodup := by
  induction paths with
  | nil => intro acc h; simpa [addFilesLoop] using h
  | cons p rest ih =>
    rintro ⟨pl, failed⟩ h
    simp only [addFilesLoop]
    split_ifs with h1 h2 h3
    · exact ih _ h
    · exact ih _ h
    · exact ih _ h
    · apply ih
      have h2' : p ∉ pl := by simpa using h2
      rw [List.nodup_append]
      exact ⟨h, List.nodup_singleton p, by
        intro a ha hap
        rw [List.mem_singleton] at hap
        exact h2' (hap ▸ ha)⟩

theorem addFiles_playlist (env : Env) (s : Player) (paths : List QString) :
    (addFiles env s paths).playlistFullPaths
      = (addFilesLoop env paths (s.playlistFullPaths, [])).1 := by
  unfold addFiles; dsimp only; split_ifs <;> rfl

theorem addFiles_currentIndex (env : Env) (s : Player) (paths : List QString) :
    (addFiles env s paths).currentIndex = s.currentIndex := by
  unfold addFiles; dsimp only; split_ifs <;> rfl

theorem loadFolder_playlist (env : Env) (s : Player) (folder : QString) :
    (loadFolder env s folder).playlistFullPaths
      = if ((env.dirFiles folder).filter isSupportedAudio).isEmpty then []
        else (addFilesLoop env
          (env.stdSort (lowerLess env) ((env.dirFiles folder).filter isSupportedAudio))
          ([], [])).1 := by
  unfold loadFolder; dsimp only
  split_ifs with h1 h2 h3 h4 <;> simp only [notify_playlist, addFiles_playlist]

theorem loadFolder_currentIndex (env : Env) (s : Player) (folder : QString) :
    (loadFolder env s folder).currentIndex
      = if (loadFolder env s folder).playlistFullPaths.isEmpty then -1 else 0 := by
  unfold loadFolder; dsimp only
  split_ifs with h1 h2 h3 h4 h5 h6 h7 h8 h9 <;>
    simp_all [Player.notify, addFiles_playlist, addFiles_currentIndex]

theorem loadIndex_playlist (env : Env) (s : Player) (r : Int) :
    (loadIndex env s r).2.playlistFullPaths = s.playlistFullPaths := by
  unfold loadIndex; dsimp only; split_ifs <;> rfl

theorem loadIndex_currentIndex (env : Env) (s : Player) (r : Int) :
    (loadIndex env s r).2.currentIndex = s.currentIndex ∨
      ((loadIndex env s r).2.currentIndex = r ∧ 0 ≤ r ∧ r < s.playlistFullPaths.length) := by
  unfold loadIndex; dsimp only
  split_ifs with h1 h2 h3
  · exact Or.inl rfl
  · exact Or.inl rfl
  · exact Or.inr ⟨rfl, by omega, by omega⟩
  · exact Or.inr ⟨rfl, by omega, by omega⟩

theorem loadIndex_cursorOk (env : Env) (s : Player) (r : Int) (h : CursorOk s) :
    CursorOk (loadIndex env s r).2 := by
  unfold CursorOk at *
  rw [loadIndex_playlist]
  rcases loadIndex_currentIndex env s r with h1 | ⟨h1, h2, h3⟩
  · rw [h1]; exact h
  · rw [h1]; exact Or.inr ⟨h2, h3⟩

theorem playLoaded_playlist (r : Bool × Player) :
    (playLoaded r).playlistFullPaths = r.2.playlistFullPaths := by
  unfold playLoaded; split_ifs <;> rfl

theorem playLoaded_currentIndex (r : Bool × Player) :
    (playLoaded r).currentIndex = r.2.currentIndex := by
  unfold playLoaded; split_ifs <;> rfl

theorem playLoaded_cursorOk (r : Bool × Player) (h : CursorOk r.2) : CursorOk (playLoaded r) := by
  unfold CursorOk at *
  rw [playLoaded_playlist, playLoaded_currentIndex]; exact h

theorem saveSession_cursorOk (s : Player) (f : Bool) (h : CursorOk s) :
    CursorOk (saveSession s f) := by
  unfold CursorOk at *
  rw [saveSession_playlist, saveSession_currentIndex]; exact h

theorem addFiles_cursorOk (env : Env) (s : Player) (paths : List QString) (h : CursorOk s) :
    CursorOk (addFiles env s paths) := by
  unfold CursorOk at *
  rw [addFiles_playlist, addFiles_currentIndex]
  obtain ⟨added, ha⟩ := addFilesLoop_extends env paths (s.playlistFullPaths, [])
  rw [ha]
  simp only [List.length_append, Nat.cast_add]
  omega

theorem loadFolder_cursorOk (env : Env) (s : Player) (folder : QString) :
    CursorOk (loadFolder env s folder) := by
  unfold CursorOk
  rw [loadFolder_currentIndex]
  cases hpl : (loadFolder env s folder).playlistFullPaths with
  | nil => simp
  | cons a l => simp

theorem perm_cons_eraseIdx {α : Type} (l : List α) (i : Nat) (d : α) (h : i < l.length) :
    (l.getD i d :: l.eraseIdx i).Perm l := by
  induction l generalizing i with
  | nil => simp at h
  | cons a l ih =>
    cases i with
    | zero => simp
    | succ i =>
      have h' : i < l.length := by simpa using h
      simp only [List.getD_cons_succ, List.eraseIdx_cons_succ]
      exact (List.Perm.swap a (l.getD i d) (l.eraseIdx i)).trans ((ih i h').cons a)

theorem playNextBranch_perm (s : Player) (r : Int)
    (hr : 0 ≤ r ∧ r < s.playlistFullPaths.length) :
    (playNextBranch s r).playlistFullPaths.Perm s.playlistFullPaths := by
  have hlt : r.toNat < s.playlistFullPaths.length := by omega
  have hlen : (s.playlistFullPaths.eraseIdx r.toNat).length = s.playlistFullPaths.length - 1 := by
    rw [List.length_eraseIdx]; simp [hlt]
  unfold playNextBranch; dsimp only
  split_ifs with h1 h2 h3 <;>
    first
    | exact List.Perm.refl _
    | exact (List.perm_insertIdx _ _ (by omega)).trans (perm_cons_eraseIdx _ _ _ hlt)

theorem playNextBranch_currentIndex (s : Player) (r : Int) :
    (playNextBranch s r).currentIndex = s.currentIndex ∨
      ((playNextBranch s r).currentIndex = s.currentIndex - 1 ∧ r < s.currentIndex) := by
  unfold playNextBranch; dsimp only
  split_ifs <;> first | exact Or.inl rfl | exact Or.inr ⟨rfl, by assumption⟩

theorem playNextBranch_cursorOk (s : Player) (r : Int)
    (hr : 0 ≤ r ∧ r < s.playlistFullPaths.length) (hc : CursorOk s) :
    CursorOk (playNextBranch s r) := by
  have hlen := (playNextBranch_perm s r hr).length_eq
  unfold CursorOk at *
  rw [hlen]
  rcases playNextBranch_currentIndex s r with h | ⟨h, h'⟩ <;> rw [h] <;> omega

theorem removeBranch_cursorOk (s : Player) (r : Int)
    (hr : 0 ≤ r ∧ r < s.playlistFullPaths.length) (hc : CursorOk s) :
    CursorOk (removeBranch s r) := by
  unfold CursorOk at *
  unfold removeBranch; dsimp only
  have : r.toNat < s.playlistFullPaths.length := by omega
  split_ifs with h1 h2
  · exact Or.inl rfl
  · dsimp only; rw [List.length_eraseIdx]; simp only [this, if_true]; omega
  · rw [List.length_eraseIdx]; simp only [this, if_true]; omega

theorem onContextMenu_cursorOk (env : Env) (s : Player) (r : Int) (chosen : MenuAction)
    (hc : CursorOk s) : CursorOk (onContextMenu env s r chosen) := by
  unfold onContextMenu
  split_ifs with h
  · exact hc
  · have hr : 0 ≤ r ∧ r < s.playlistFullPaths.length := by omega
    cases chosen
    · exact playLoaded_cursorOk _ (loadIndex_cursorOk env s r hc)
    · exact playNextBranch_cursorOk s r hr hc
    · exact hc
    · exact removeBranch_cursorOk s r hr hc

theorem stop_playlist (s : Player) : (stop s).playlistFullPaths = s.playlistFullPaths := by
  unfold stop; rw [saveSession_playlist]

theorem stop_currentIndex (s : Player) : (stop s).currentIndex = s.currentIndex := by
  unfold stop; rw [saveSession_currentIndex]

theorem togglePlayPause_playlist (env : Env) (s : Player) :
    (togglePlayPause env s).playlistFullPaths = s.playlistFullPaths := by
  unfold togglePlayPause; dsimp only
  split_ifs <;> simp only [saveSession_playlist, loadIndex_playlist, notify_playlist]

theorem togglePlayPause_cursorOk (env : Env) (s : Player) (h : CursorOk s) :
    CursorOk (togglePlayPause env s) := by
  unfold togglePlayPause; dsimp only
  split_ifs <;>
    first
    | exact h
    | exact loadIndex_cursorOk env s 0 h
    | exact saveSession_cursorOk _ _ (loadIndex_cursorOk env s 0 h)
    | exact saveSession_cursorOk _ _ h

theorem next_playlist (env : Env) (s : Player) :
    (next env s).playlistFullPaths = s.playlistFullPaths := by
  unfold next; dsimp only
  split_ifs <;>
    simp only [saveSession_playlist, playLoaded_playlist, loadIndex_playlist]

theorem next_cursorOk (env : Env) (s : Player) (h : CursorOk s) : CursorOk (next env s) := by
  unfold next; dsimp only
  split_ifs
  · exact h
  · exact loadIndex_cursorOk env s _ h
  · exact saveSession_cursorOk _ _ (playLoaded_cursorOk _ (loadIndex_cursorOk env s _ h))

theorem prev_playlist (env : Env) (s : Player) :
    (prev env s).playlistFullPaths = s.playlistFullPaths := by
  unfold prev; dsimp only
  split_ifs <;>
    simp only [saveSession_playlist, playLoaded_playlist, loadIndex_playlist]

theorem prev_cursorOk (env : Env) (s : Player) (h : CursorOk s) : CursorOk (prev env s) := by
  unfold prev; dsimp only
  split_ifs
  · exact h
  · exact loadIndex_cursorOk env s _ h
  · exact saveSession_cursorOk _ _ (playLoaded_cursorOk _ (loadIndex_cursorOk env s _ h))

theorem seekReleased_playlist (s : Player) (t : Option Offset) :
    (seekReleased s t).playlistFullPaths = s.playlistFullPaths := by
  cases t <;> simp [seekReleased, saveSession_playlist]

theorem seekReleased_currentIndex (s : Player) (t : Option Offset) :
    (seekReleased s t).currentIndex = s.currentIndex := by
  cases t <;> simp [seekReleased, saveSession_currentIndex]

theorem autoAdvance_playlist (env : Env) (s : Player) :
    (autoAdvance env s).playlistFullPaths = s.playlistFullPaths := by
  unfold autoAdvance; dsimp only
  split_ifs <;> simp only [loadIndex_playlist]

theorem autoAdvance_cursorOk (env : Env) (s : Player) (h : CursorOk s) :
    CursorOk (autoAdvance env s) := by
  have h1 : CursorOk { s with wasPlaying := false } := h
  unfold autoAdvance; dsimp only
  split_ifs
  · exact loadIndex_cursorOk env _ _ h1
  · exact loadIndex_cursorOk env _ _ h1
  · exact h1

theorem tick_playlist (env : Env) (s : Player) :
    (tick env s).playlistFullPaths = s.playlistFullPaths := by
  unfold tick; dsimp only
  split_ifs <;> simp only [saveSession_playlist, autoAdvance_playlist]

theorem tick_cursorOk (env : Env) (s : Player) (h : CursorOk s) : CursorOk (tick env s) := by
  have h1 : CursorOk { s with wasPlaying := true } := h
  unfold tick; dsimp only
  split_ifs <;>
    first
    | exact saveSession_cursorOk _ _ (autoAdvance_cursorOk env _ h1)
    | exact saveSession_cursorOk _ _ (autoAdvance_cursorOk env _ h)
    | exact saveSession_cursorOk _ _ h1
    | exact saveSession_cursorOk _ _ h
    | exact autoAdvance_cursorOk env _ h1
    | exact autoAdvance_cursorOk env _ h
    | exact h1

theorem restoreLastSession_cursorOk (env : Env) (s : Player) (h : CursorOk s) :
    CursorOk (restoreLastSession env s) := by
  unfold restoreLastSession; dsimp only
  split_ifs <;>
    first
    | exact h
    | exact loadFolder_cursorOk env s _
    | exact loadIndex_cursorOk env _ _ (loadFolder_cursorOk env s _)

theorem step_cursorOk (env : Env) (s : Player) (a : Action) (h : CursorOk s) :
    CursorOk (step env s a) := by
  cases a with
  | loadFolder folderPath => exact loadFolder_cursorOk env s folderPath
  | addFiles filePaths => exact addFiles_cursorOk env s filePaths h
  | loadIndex sourceRow => exact loadIndex_cursorOk env s sourceRow h
  | doubleClick sourceRow => exact playLoaded_cursorOk _ (loadIndex_cursorOk env s sourceRow h)
  | contextMenu sourceRow chosen => exact onContextMenu_cursorOk env s sourceRow chosen h
  | togglePlayPause => exact togglePlayPause_cursorOk env s h
  | stop => exact saveSession_cursorOk _ _ h
  | next => exact next_cursorOk env s h
  | prev => exact prev_cursorOk env s h
  | seekPressed => exact h
  | seekReleased target =>
    unfold CursorOk at *
    simp only [step, seekReleased_playlist, seekReleased_currentIndex]; exact h
  | volumeChanged v => exact h
  | tick => exact tick_cursorOk env s h
  | engine st => exact h
  | restoreLastSession => exact restoreLastSession_cursorOk env s h
  | close => exact saveSession_cursorOk _ _ h


theorem loadFolder_nodup (env : Env) (s : Player) (folder : QString) :
    (loadFolder env s folder).playlistFullPaths.Nodup := by
  rw [loadFolder_playlist]
  split_ifs
  · exact List.nodup_nil
  · exact addFilesLoop_nodup env _ _ List.nodup_nil

theorem removeBranch_playlist (s : Player) (r : Int) :
    (removeBranch s r).playlistFullPaths = s.playlistFullPaths.eraseIdx r.toNat := by
  unfold removeBranch; dsimp only
  split_ifs <;> simp only [stop_playlist]

theorem onContextMenu_nodup (env : Env) (s : Player) (r : Int) (chosen : MenuAction)
    (h : s.playlistFullPaths.Nodup) : (onContextMenu env s r chosen).playlistFullPaths.Nodup := by
  unfold onContextMenu
  split_ifs with hg
  · exact h
  · have hr : 0 ≤ r ∧ r < s.playlistFullPaths.length := by omega
    cases chosen
    · simp only [playLoaded_playlist, loadIndex_playlist]; exact h
    · exact (playNextBranch_perm s r hr).nodup_iff.mpr h
    · exact h
    · simp only [removeBranch_playlist]
      exact h.sublist (List.eraseIdx_sublist _ _)

theorem restoreLastSession_nodup (env : Env) (s : Player) (h : s.playlistFullPaths.Nodup) :
    (restoreLastSession env s).playlistFullPaths.Nodup := by
  unfold restoreLastSession; dsimp only
  split_ifs <;>
    first
    | exact h
    | exact loadFolder_nodup env s _
    | (simp only [loadIndex_playlist]; exact loadFolder_nodup env s _)

theorem step_nodup (env : Env) (s : Player) (a : Action) (h : s.playlistFullPaths.Nodup) :
    (step env s a).playlistFullPaths.Nodup := by
  cases a with
  | loadFolder folderPath => exact loadFolder_nodup env s folderPath
  | addFiles filePaths =>
    simp only [step, addFiles_playlist]
    exact addFilesLoop_nodup env _ _ h
  | loadIndex sourceRow => simp only [step, loadIndex_playlist]; exact h
  | doubleClick sourceRow =>
    simp only [step, onDoubleClick, playLoaded_playlist, loadIndex_playlist]; exact h
  | contextMenu sourceRow chosen => exact onContextMenu_nodup env s sourceRow chosen h
  | togglePlayPause => simp only [step, togglePlayPause_playlist]; exact h
  | stop => simp only [step, stop_playlist]; exact h
  | next => simp only [step, next_playlist]; exact h
  | prev => simp only [step, prev_playlist]; exact h
  | seekPressed => exact h
  | seekReleased target => simp only [step, seekReleased_playlist]; exact h
  | volumeChanged v => exact h
  | tick => simp only [step, tick_playlist]; exact h
  | engine st => exact h
  | restoreLastSession => exact restoreLastSession_nodup env s h
  | close => simp only [step, closeEvent, saveSession_playlist]; exact h


/-! ## C3: the cursor stays in range -/

/-- C3: in every state reachable from a fresh controller (empty playlist, cursor `-1`)
by any sequence of events, the cursor is `-1` or satisfies
`0 <= cursor < playlist length`. -/
theorem cursor_in_range (s : Player) (h : Reachable s) :
    s.currentIndex = -1 ∨ (0 ≤ s.currentIndex ∧ s.currentIndex < s.playlistFullPaths.length) := by
  induction h with
  | init st => exact Or.inl rfl
  | step env a _ ih => exact step_cursorOk env _ a ih

/-- C3 at a concrete run: a folder is loaded, the second track is played, the first row
is removed and the timer ticks. -/
theorem cursor_in_range_witness :
    Reachable
        (step demoEnv
          (step demoEnv
            (step demoEnv
              (step demoEnv (fresh noSettings) (Action.loadFolder "music".toList))
              (Action.doubleClick 1))
            (Action.contextMenu 0 MenuAction.actRemove))
          Action.tick) ∧
      ((step demoEnv
          (step demoEnv
            (step demoEnv
              (step demoEnv (fresh noSettings) (Action.loadFolder "music".toList))
              (Action.doubleClick 1))
            (Action.contextMenu 0 MenuAction.actRemove))
          Action.tick).currentIndex = -1 ∨
        (0 ≤ (step demoEnv
          (step demoEnv
            (step demoEnv
              (step demoEnv (fresh noSettings) (Action.loadFolder "music".toList))
              (Action.doubleClick 1))
            (Action.contextMenu 0 MenuAction.actRemove))
          Action.tick).currentIndex ∧
         (step demoEnv
          (step demoEnv
            (step demoEnv
              (step demoEnv (fresh noSettings) (Action.loadFolder "music".toList))
              (Action.doubleClick 1))
            (Action.contextMenu 0 MenuAction.actRemove))
          Action.tick).currentIndex <
          (step demoEnv
          (step demoEnv
            (step demoEnv
              (step demoEnv (fresh noSettings) (Action.loadFolder "music".toList))
              (Action.doubleClick 1))
            (Action.contextMenu 0 MenuAction.actRemove))
          Action.tick).playlistFullPaths.length)) :=
  ⟨Reachable.step _ _ (Reachable.step _ _ (Reachable.step _ _
      (Reachable.step _ _ (Reachable.init noSettings)))),
    cursor_in_range _ (Reachable.step _ _ (Reachable.step _ _ (Reachable.step _ _
      (Reachable.step _ _ (Reachable.init noSettings)))))⟩

/-! ## C4: no path twice -/

/-- C4: in every state reachable from the empty playlist by any sequence of events
(loading folders, adding batches of files that may repeat a path, Play Next, Remove and
all the others), the playlist contains no path twice. -/
theorem playlist_nodup (s : Player) (h : Reachable s) : s.playlistFullPaths.Nodup := by
  induction h with
  | init st => exact List.nodup_nil
  | step env a _ ih => exact step_nodup env _ a ih

/-- C4 at a concrete run: a batch that repeats a path is added to an empty playlist. -/
theorem playlist_nodup_witness :
    Reachable
        (step demoEnv (fresh noSettings)
          (Action.addFiles ["x.wav".toList, "y.ogg".toList, "x.wav".toList])) ∧
      (step demoEnv (fresh noSettings)
          (Action.addFiles ["x.wav".toList, "y.ogg".toList, "x.wav".toList])
        ).playlistFullPaths.Nodup :=
  ⟨Reachable.step _ _ (Reachable.init noSettings),
    playlist_nodup _ (Reachable.step _ _ (Reachable.init noSettings))⟩

theorem firstOccurrences_filter (q : QString → Bool) (l : List QString) :
    firstOccurrences (l.filter q) = (firstOccurrences l).filter q := by
  induction l with
  | nil => rfl
  | cons x xs ih =>
    by_cases hq : q x = true
    · simp only [List.filter_cons, hq, if_true, firstOccurrences, ih, List.filter_filter]
      congr 1
      apply List.filter_congr
      intro y _
      exact Bool.and_comm _ _
    · simp only [List.filter_cons, hq, firstOccurrences, List.filter_filter]
      simp only [Bool.false_eq_true, if_false]
      rw [ih]
      apply List.filter_congr
      intro y _
      by_cases hy : q y = true
      · have : y ≠ x := fun h => hq (h ▸ hy)
        simp [hy, this]
      · simp [hy]

theorem addFilesLoop_fst (env : Env) (L : List QString) :
    ∀ P F : List QString,
      (addFilesLoop env L (P, F)).1 = P ++ firstOccurrences (L.filter (toBeAdded env P)) := by
  induction L with
  | nil => intro P F; simp [addFilesLoop, firstOccurrences]
  | cons p rest ih =>
    intro P F
    simp only [addFilesLoop]
    split_ifs with h1 h2 h3
    · have : toBeAdded env P p = false := by simp_all [toBeAdded]
      rw [ih, List.filter_cons, this]; rfl
    · have : toBeAdded env P p = false := by simp_all [toBeAdded]
      rw [ih, List.filter_cons, this]; rfl
    · have : toBeAdded env P p = false := by simp_all [toBeAdded]
      rw [ih, List.filter_cons, this]; rfl
    · have hp : toBeAdded env P p = true := by simp_all [toBeAdded]
      rw [ih, List.filter_cons, hp]
      simp only [if_true, firstOccurrences, List.append_assoc, List.singleton_append]
      congr 2
      rw [← firstOccurrences_filter, List.filter_filter]
      congr 1
      apply List.filter_congr
      intro y _
      by_cases hy : y = p <;> simp [toBeAdded, hy]

theorem addFilesLoop_snd (env : Env) (L : List QString) :
    ∀ P F : List QString,
      (addFilesLoop env L (P, F)).2
        = F ++ (L.filter (toBeReported env P)).map fileName := by
  induction L with
  | nil => intro P F; simp [addFilesLoop]
  | cons p rest ih =>
    intro P F
    simp only [addFilesLoop]
    split_ifs with h1 h2 h3
    · have : toBeReported env P p = false := by simp_all [toBeReported]
      rw [ih, List.filter_cons, this]; rfl
    · have : toBeReported env P p = false := by simp_all [toBeReported]
      rw [ih, List.filter_cons, this]; rfl
    · have hp : toBeReported env P p = true := by simp_all [toBeReported]
      rw [ih, List.filter_cons, hp]
      simp
    · have hp : toBeReported env P p = false := by simp_all [toBeReported]
      rw [ih, List.filter_cons, hp]
      simp only [Bool.false_eq_true, if_false]
      congr 2
      apply List.filter_congr
      intro y _
      by_cases hy : y = p
      · subst hy; simp_all [toBeReported]
      · simp [toBeReported, hy]

theorem afterLast_of_not_mem (c : Char) (s : QString) (h : c ∉ s) : afterLast c s = s := by
  cases s with
  | nil => rfl
  | cons x xs =>
    have h1 : c ∉ xs := fun h' => h (List.mem_cons_of_mem _ h')
    have h2 : x ≠ c := fun h' => h (h' ▸ List.mem_cons_self _ _)
    simp [afterLast, h1, h2]

theorem afterLast_split (c : Char) (s : QString) (h : c ∈ s) :
    ∃ pre, s = pre ++ c :: afterLast c s ∧ c ∉ afterLast c s := by
  induction s with
  | nil => simp at h
  | cons x xs ih =>
    by_cases h1 : c ∈ xs
    · obtain ⟨pre, hpre, hn⟩ := ih h1
      refine ⟨x :: pre, ?_, ?_⟩
      · simp only [afterLast, h1, if_true, List.cons_append]
        rw [← hpre]
      · simpa [afterLast, h1] using hn
    · have h2 : x = c := by
        rcases List.mem_cons.mp h with h' | h'
        · exact h'.symm
        · exact absurd h' h1
      exact ⟨[], by simp [afterLast, h1, h2], by simp [afterLast, h1, h2]⟩

theorem afterLast_append_cons (c : Char) (pre ext : QString) (h : c ∉ ext) :
    afterLast c (pre ++ c :: ext) = ext := by
  induction pre with
  | nil => simp [afterLast, h]
  | cons x xs ih => simp [afterLast, ih]

theorem isSupportedAudio_iff (p : QString) :
    isSupportedAudio p = true ↔
      ∃ stem ext, fileName p = stem ++ '.' :: ext ∧ '.' ∉ ext ∧
        toLower ext ∈ supportedExtensions := by
  have key : isSupportedAudio p = true ↔ toLower (suffix p) ∈ supportedExtensions := by
    simp [isSupportedAudio, supportedExtensions, or_assoc]
  rw [key]
  constructor
  · intro h
    by_cases hd : '.' ∈ fileName p
    · obtain ⟨pre, hpre, hn⟩ := afterLast_split '.' _ hd
      refine ⟨pre, afterLast '.' (fileName p), hpre, hn, ?_⟩
      simpa [suffix, hd] using h
    · exfalso
      simp only [suffix, hd, if_false] at h
      revert h; decide
  · rintro ⟨stem, ext, h1, h2, h3⟩
    have hd : '.' ∈ fileName p := by rw [h1]; simp
    simp only [suffix, hd, if_true]
    rw [h1, afterLast_append_cons _ _ _ h2]
    exact h3

/-! ## C5: addFiles -/

/-- C5: `addFiles` keeps the playlist `P` as a prefix and appends, in input order, exactly
the first occurrences of the paths of the batch that have a supported extension (the text
after the last dot of the file name, lower-cased, is one of wav, ogg, flac, aiff, au),
are not in `P` and exist on disk; the supported, absent, non-existing paths make up the
one failure report, shown when there is any; and adding a path that is already present
leaves the playlist and its length unchanged. -/
theorem addFiles_spec (env : Env) (s : Player) (L : List QString) :
    (addFiles env s L).playlistFullPaths
        = s.playlistFullPaths
            ++ firstOccurrences (L.filter (toBeAdded env s.playlistFullPaths)) ∧
    (∀ p, isSupportedAudio p = true ↔
        ∃ stem ext, fileName p = stem ++ '.' :: ext ∧ '.' ∉ ext ∧
          toLower ext ∈ supportedExtensions) ∧
    (addFiles env s L).notices
        = (if (L.filter (toBeReported env s.playlistFullPaths)).isEmpty then s.notices
            else s.notices ++ [Notice.couldntBeAdded
              ((L.filter (toBeReported env s.playlistFullPaths)).map fileName)]) ∧
    (∀ p, p ∈ s.playlistFullPaths →
        (addFiles env s [p]).playlistFullPaths = s.playlistFullPaths ∧
        (addFiles env s [p]).playlistFullPaths.length = s.playlistFullPaths.length) := by
  refine ⟨?_, isSupportedAudio_iff, ?_, ?_⟩
  · rw [addFiles_playlist, addFilesLoop_fst]
  · unfold addFiles; dsimp only
    rw [addFilesLoop_snd]
    simp only [List.nil_append, List.isEmpty_iff, List.map_eq_nil_iff]
    by_cases h : L.filter (toBeReported env s.playlistFullPaths) = []
    · simp [h]
    · simp [h, Player.notify]
  · intro p hp
    have h : (addFiles env s [p]).playlistFullPaths = s.playlistFullPaths := by
      rw [addFiles_playlist, addFilesLoop_fst]
      have : toBeAdded env s.playlistFullPaths p = false := by
        simp [toBeAdded, hp]
      simp [List.filter_cons, this, firstOccurrences]
    exact ⟨h, by rw [h]⟩

/-- C5 at a concrete batch: a path already in the playlist, a new path given twice, an
unsupported file and a missing file. -/
theorem addFiles_spec_witness :
    (addFiles demoEnvMissing demoPlayer
        ["b.wav".toList, "x.ogg".toList, "notes.txt".toList, "gone.wav".toList,
          "x.ogg".toList, "y.FLAC".toList]).playlistFullPaths
      = demoPlayer.playlistFullPaths
          ++ firstOccurrences
            (["b.wav".toList, "x.ogg".toList, "notes.txt".toList, "gone.wav".toList,
              "x.ogg".toList, "y.FLAC".toList].filter
              (toBeAdded demoEnvMissing demoPlayer.playlistFullPaths)) ∧
    demoPlayer.playlistFullPaths
          ++ firstOccurrences
            (["b.wav".toList, "x.ogg".toList, "notes.txt".toList, "gone.wav".toList,
              "x.ogg".toList, "y.FLAC".toList].filter
              (toBeAdded demoEnvMissing demoPlayer.playlistFullPaths))
      = ["a.wav".toList, "b.wav".toList, "c.wav".toList, "d.wav".toList, "x.ogg".toList,
          "y.FLAC".toList] ∧
    (addFiles demoEnvMissing demoPlayer
        ["b.wav".toList, "x.ogg".toList, "notes.txt".toList, "gone.wav".toList,
          "x.ogg".toList, "y.FLAC".toList]).notices
      = [Notice.couldntBeAdded ["gone.wav".toList]] :=
  ⟨(addFiles_spec demoEnvMissing demoPlayer _).1, by decide, by decide⟩

/-- The comparison of `QString` at some values: a proper beginning comes first, and a
character beyond the basic plane, being a surrogate pair, comes before U+FF5E although
its code point is larger. -/
theorem qLess_examples :
    qLess "a".toList "b".toList = true ∧ qLess "b".toList "a".toList = false ∧
    qLess "a".toList "ab".toList = true ∧ qLess "ab".toList "a".toList = false ∧
    qLess "a".toList "a".toList = false ∧
    qLess [Char.ofNat 0x10000] [Char.ofNat 0xFF5E] = true ∧
    qLess [Char.ofNat 0xFF5E] [Char.ofNat 0x10000] = false ∧
    codeUnits [Char.ofNat 0x1F600] = [0xD83D, 0xDE00] ∧
    demoEnv.toLower ([Char.ofNat 0xC9] ++ "Bc.WAV".toList)
      = [Char.ofNat 0xE9] ++ "bc.wav".toList := by
  decide

theorem unitsLess_total (a : List Nat) :
    ∀ b : List Nat, unitsLess b a = false ∨ unitsLess a b = false := by
  induction a with
  | nil => intro b; exact Or.inl (by cases b <;> rfl)
  | cons x as ih =>
    intro b
    cases b with
    | nil => exact Or.inr rfl
    | cons y bs =>
      simp only [unitsLess]
      rcases ih bs with h | h
      · by_cases h1 : y < x
        · right; simp [h1]; omega
        · by_cases h2 : x < y
          · left; simp [h1, h2]
          · left; simp [h1, h2, h]
      · by_cases h1 : y < x
        · right; simp [h1]; omega
        · by_cases h2 : x < y
          · left; simp [h1, h2]
          · right; simp [h1, h2, h]

theorem unitsLess_trans (a : List Nat) :
    ∀ b c : List Nat, unitsLess b a = false → unitsLess c b = false → unitsLess c a = false := by
  induction a with
  | nil => intro b c _ _; cases c <;> rfl
  | cons x as ih =>
    intro b c h1 h2
    cases b with
    | nil => simp [unitsLess] at h1
    | cons y bs =>
      cases c with
      | nil => simp [unitsLess] at h2
      | cons z cs =>
        simp only [unitsLess] at h1 h2 ⊢
        by_cases hyx : y < x
        · simp [hyx] at h1
        · by_cases hzy : z < y
          · simp [hzy] at h2
          · by_cases hxy : x < y
            · have : ¬ z < x := by omega
              have : x < z := by omega
              simp [*]
            · by_cases hyz : y < z
              · have : ¬ z < x := by omega
                have : x < z := by omega
                simp [*]
              · have e1 : ¬ z < x := by omega
                have e2 : ¬ x < z := by omega
                simp only [hyx, hxy, if_false] at h1
                simp only [hzy, hyz, if_false] at h2
                simp only [e1, e2, if_false]
                exact ih bs cs h1 h2

theorem unitsLess_irrefl (a : List Nat) : unitsLess a a = false := by
  induction a with
  | nil => rfl
  | cons x as ih => simp [unitsLess, ih]

/-- The comparator of `loadFolder` never puts a path before itself. -/
theorem lowerLess_irrefl (env : Env) (a : QString) : lowerLess env a a = false :=
  unitsLess_irrefl _

/-- Of two paths the comparator of `loadFolder` puts at most one before the other. -/
theorem lowerLess_total (env : Env) (a b : QString) :
    lowerLess env b a = false ∨ lowerLess env a b = false :=
  unitsLess_total _ _

/-- Not being put before is transitive for the comparator of `loadFolder`; with
`lowerLess_irrefl` and `lowerLess_total` it is the strict weak ordering that `std::sort`
asks for. -/
theorem lowerLess_trans (env : Env) (a b c : QString) (h1 : lowerLess env b a = false)
    (h2 : lowerLess env c b = false) : lowerLess env c a = false :=
  unitsLess_trans _ _ _ h1 h2

theorem insertionSortBy_perm (cmp : QString → QString → Bool) (l : List QString) :
    (insertionSortBy cmp l).Perm l :=
  List.perm_insertionSort _ l

theorem insertionSortBy_lowerLess_sorted (env : Env) (l : List QString) :
    (insertionSortBy (lowerLess env) l).Pairwise (fun a b => lowerLess env b a = false) :=
  @List.sorted_insertionSort _ (fun a b => lowerLess env b a = false) _
    ⟨fun a b => (lowerLess_total env b a).symm⟩
    ⟨fun a b c h1 h2 => lowerLess_trans env a b c h1 h2⟩ l

theorem firstOccurrences_of_nodup (l : List QString) (h : l.Nodup) :
    firstOccurrences l = l := by
  induction l with
  | nil => rfl
  | cons x xs ih =>
    rw [List.nodup_cons] at h
    simp only [firstOccurrences, ih h.2]
    congr 1
    rw [List.filter_eq_self]
    intro y hy
    have : y ≠ x := fun e => h.1 (e ▸ hy)
    simp [this]

theorem loadFolder_playlist_of_listing (env : Env) (s : Player) (F : QString)
    (hn : (env.dirFiles F).Nodup) (he : ∀ p ∈ env.dirFiles F, env.qExists p = true)
    (hperm : (env.stdSort (lowerLess env) ((env.dirFiles F).filter isSupportedAudio)).Perm
      ((env.dirFiles F).filter isSupportedAudio)) :
    (loadFolder env s F).playlistFullPaths
      = env.stdSort (lowerLess env) ((env.dirFiles F).filter isSupportedAudio) := by
  rw [loadFolder_playlist]
  split_ifs with h0
  · rw [List.isEmpty_iff] at h0
    rw [h0] at hperm ⊢
    exact (List.Perm.eq_nil hperm).symm
  · rw [addFilesLoop_fst, List.nil_append]
    have hall : ∀ p ∈ env.stdSort (lowerLess env) ((env.dirFiles F).filter isSupportedAudio),
        toBeAdded env [] p = true := by
      intro p hp
      have hp' := (hperm.mem_iff).mp hp
      rw [List.mem_filter] at hp'
      simp [toBeAdded, hp'.2, he p hp'.1]
    rw [List.filter_eq_self.mpr hall]
    exact firstOccurrences_of_nodup _ ((hperm.nodup_iff).mpr (hn.filter _))

/-! ## C6: loadFolder -/

theorem rdropWhile_append_of_pos (p : Char → Bool) (l r : QString) (h : ∀ x ∈ r, p x = true) :
    (l ++ r).rdropWhile p = l.rdropWhile p := by
  unfold List.rdropWhile
  rw [List.reverse_append, List.dropWhile_append_of_pos]
  intro a ha
  exact h a (List.mem_reverse.mp ha)

theorem rdropWhile_append_of_ne_nil (p : Char → Bool) (l r : QString)
    (h : r.rdropWhile p ≠ []) : (l ++ r).rdropWhile p = l ++ r.rdropWhile p := by
  unfold List.rdropWhile at *
  rw [List.reverse_append, List.dropWhile_append]
  have : (List.dropWhile p r.reverse).isEmpty = false := by
    cases hd : List.dropWhile p r.reverse with
    | nil => simp [hd] at h
    | cons a l => rfl
  simp [this]

theorem dropWhile_append_of_ne_nil (p : Char → Bool) (l r : QString)
    (h : l.dropWhile p ≠ []) : (l ++ r).dropWhile p = l.dropWhile p ++ r := by
  rw [List.dropWhile_append]
  have : (List.dropWhile p l).isEmpty = false := by
    cases hd : List.dropWhile p l with
    | nil => exact absurd hd h
    | cons a l => rfl
  simp [this]

theorem dropWhile_head_not (p : Char → Bool) (a : Char) (rest : QString) :
    ∀ s : QString, s.dropWhile p = a :: rest → p a = false := by
  intro s
  induction s with
  | nil => intro h; simp at h
  | cons x xs ih =>
    intro h
    by_cases hx : p x = true
    · rw [List.dropWhile_cons_of_pos hx] at h; exact ih h
    · rw [List.dropWhile_cons_of_neg hx] at h
      have : x = a := by injection h
      rw [← this]; simpa using hx

theorem rdropWhile_append_rtakeWhile (p : Char → Bool) (l : QString) :
    l.rdropWhile p ++ l.rtakeWhile p = l := by
  unfold List.rdropWhile List.rtakeWhile
  rw [← List.reverse_append, List.takeWhile_append_dropWhile, List.reverse_reverse]

theorem trimmed_tight (s : QString) :
    (trimmed s).dropWhile isSpace = trimmed s ∧ (trimmed s).rdropWhile isSpace = trimmed s := by
  refine ⟨?_, List.rdropWhile_idempotent _ _⟩
  unfold trimmed
  obtain ⟨t, ht⟩ := List.rdropWhile_prefix isSpace (s.dropWhile isSpace)
  cases hT : List.rdropWhile isSpace (List.dropWhile isSpace s) with
  | nil => rfl
  | cons a T =>
    rw [hT, List.cons_append] at ht
    have := dropWhile_head_not isSpace a (T ++ t) s ht.symm
    rw [List.dropWhile_cons_of_neg (by simp [this])]

theorem trimmed_decomp (s : QString) :
    ∃ l r, s = l ++ trimmed s ++ r ∧ (∀ x ∈ l, isSpace x = true) ∧
      (∀ x ∈ r, isSpace x = true) := by
  refine ⟨s.takeWhile isSpace, (s.dropWhile isSpace).rtakeWhile isSpace, ?_, ?_, ?_⟩
  · unfold trimmed
    rw [List.append_assoc, rdropWhile_append_rtakeWhile, List.takeWhile_append_dropWhile]
  · intro x hx
    exact (List.mem_takeWhile_imp hx)
  · intro x hx
    unfold List.rtakeWhile at hx
    exact List.mem_takeWhile_imp (List.mem_reverse.mp hx)

theorem trimmed_compose (l c r : QString) (hl : ∀ x ∈ l, isSpace x = true)
    (hr : ∀ x ∈ r, isSpace x = true) (hc0 : c ≠ [])
    (hc1 : c.dropWhile isSpace = c) (hc2 : c.rdropWhile isSpace = c) :
    trimmed (l ++ c ++ r) = c := by
  unfold trimmed
  rw [List.append_assoc, List.dropWhile_append_of_pos hl,
    dropWhile_append_of_ne_nil _ _ _ (by rw [hc1]; exact hc0), hc1,
    rdropWhile_append_of_pos _ _ _ hr, hc2]

theorem indexOf_nil (sep : QString) : indexOf [] sep = if sep.isEmpty then 0 else -1 := by
  unfold indexOf; rfl

theorem indexOf_cons (c : Char) (cs sep : QString) :
    indexOf (c :: cs) sep
      = if sep.isPrefixOf (c :: cs) then 0
        else if indexOf cs sep < 0 then -1 else indexOf cs sep + 1 := by
  rw [indexOf]

theorem indexOf_ge (s sep : QString) : indexOf s sep = -1 ∨ 0 ≤ indexOf s sep := by
  induction s with
  | nil => rw [indexOf_nil]; split_ifs <;> simp
  | cons c cs ih =>
    rw [indexOf_cons]
    split_ifs <;> omega

theorem indexOf_sound (s sep : QString) (h : 0 ≤ indexOf s sep) :
    sep <+: s.drop (indexOf s sep).toNat := by
  induction s with
  | nil =>
    rw [indexOf_nil] at h ⊢
    split_ifs at h ⊢ with h1
    · rw [List.isEmpty_iff] at h1; simp [h1]
    · omega
  | cons c cs ih =>
    rw [indexOf_cons] at h ⊢
    split_ifs at h ⊢ with h1 h2
    · simpa using List.isPrefixOf_iff_prefix.mp h1
    · omega
    · have h3 : 0 ≤ indexOf cs sep := by omega
      have := ih h3
      have e : (indexOf cs sep + 1).toNat = (indexOf cs sep).toNat + 1 := by omega
      rw [e, List.drop_succ_cons]
      exact this

theorem indexOf_first (sep : QString) (s : QString) :
    ∀ n : Nat, n ≤ s.length → sep <+: s.drop n → (∀ i, i < n → ¬ sep <+: s.drop i) →
      indexOf s sep = n := by
  induction s with
  | nil =>
    intro n hn hp _
    have : n = 0 := by simpa using hn
    subst this
    have : sep = [] := by simpa using hp
    subst this
    rfl
  | cons c cs ih =>
    intro n hn hp hfirst
    rw [indexOf_cons]
    cases n with
    | zero =>
      have : sep.isPrefixOf (c :: cs) = true := List.isPrefixOf_iff_prefix.mpr (by simpa using hp)
      simp [this]
    | succ m =>
      have h0 : ¬ sep.isPrefixOf (c :: cs) = true := by
        intro h
        exact hfirst 0 (by omega) (by simpa using List.isPrefixOf_iff_prefix.mp h)
      have hm := ih m (by simpa using hn) (by simpa using hp)
        (fun i hi => by simpa using hfirst (i + 1) (by omega))
      rw [if_neg h0, hm]
      have : ¬ ((m : Int) < 0) := by omega
      rw [if_neg this]
      push_cast; rfl

theorem indexOf_none (sep : QString) (s : QString) (h : ∀ i, ¬ sep <+: s.drop i) :
    indexOf s sep = -1 := by
  rcases indexOf_ge s sep with h1 | h1
  · exact h1
  · exact absurd (indexOf_sound s sep h1) (h _)

theorem indexOf_none_of_bounded (sep : QString) (s : QString) (hsep : sep ≠ [])
    (h : ∀ i, i < s.length → ¬ sep <+: s.drop i) : indexOf s sep = -1 := by
  apply indexOf_none
  intro i hp
  by_cases hi : i < s.length
  · exact h i hi hp
  · rw [List.drop_eq_nil_of_le (by omega)] at hp
    exact hsep (by simpa using hp)

theorem parseLoop_skip (s : QString) (pre post : List QString)
    (h : ∀ x ∈ pre, indexOf s x ≤ 0) : parseLoop s (pre ++ post) = parseLoop s post := by
  induction pre with
  | nil => rfl
  | cons x xs ih =>
    have hx : ¬ indexOf s x > 0 := by
      have := h x (List.mem_cons_self _ _); omega
    rw [List.cons_append, parseLoop]
    simp only [hx, if_false]
    exact ih (fun y hy => h y (List.mem_cons_of_mem _ hy))

theorem parseLoop_hit (s sep : QString) (post : List QString) (hp : indexOf s sep > 0)
    (ht : trimmed (mid s (indexOf s sep + sep.length)) ≠ []) :
    parseLoop s (sep :: post)
      = (trimmed (left s (indexOf s sep)), trimmed (mid s (indexOf s sep + sep.length))) := by
  rw [parseLoop]
  have : (trimmed (mid s (indexOf s sep + sep.length))).isEmpty = false := by
    cases h : trimmed (mid s (indexOf s sep + sep.length)) with
    | nil => exact absurd h ht
    | cons a l => rfl
  simp [hp, this]

theorem parseLoop_fallthrough (s : QString) (l : List QString)
    (h : ∀ x ∈ l, indexOf s x ≤ 0) : parseLoop s l = ([], s) := by
  have := parseLoop_skip s l [] h
  rw [List.append_nil] at this
  rw [this]; rfl

/-! ## C8: file names without a separator -/

/-- C8: when the trimmed input contains none of the three separators at a position
`> 0`, `parseArtistTitleFromFilename` returns an empty artist and the whole trimmed input
as title; and the parser returns a pair for every input. -/
theorem parse_without_separator (x : QString)
    (h : ∀ sep ∈ seps, ∀ i, i < (trimmed x).length → 0 < i →
      ¬ sep <+: (trimmed x).drop i) :
    parseArtistTitleFromFilename x = ([], trimmed x) ∧
    (∀ y : QString, ∃ artist title, parseArtistTitleFromFilename y = (artist, title)) := by
  refine ⟨?_, fun y => ⟨_, _, rfl⟩⟩
  unfold parseArtistTitleFromFilename
  apply parseLoop_fallthrough
  intro sep hsep
  by_contra hpos
  have hpos' : 0 < indexOf (trimmed x) sep := by omega
  have hs := indexOf_sound (trimmed x) sep (by omega)
  have hne : sep ≠ [] := by
    intro e; subst e; revert hsep; decide
  have hlt : (indexOf (trimmed x) sep).toNat < (trimmed x).length := by
    by_contra hge
    rw [List.drop_eq_nil_of_le (by omega)] at hs
    exact hne (by simpa using hs)
  exact h sep hsep _ hlt (by omega) hs

/-- C8 at the two file names of the specification, `- OnlyTitle` and `NoSeparator`. -/
theorem parse_without_separator_witness :
    (∀ sep ∈ seps, ∀ i, i < (trimmed "- OnlyTitle".toList).length → 0 < i →
      ¬ sep <+: (trimmed "- OnlyTitle".toList).drop i) ∧
    parseArtistTitleFromFilename "- OnlyTitle".toList = ([], "- OnlyTitle".toList) ∧
    parseArtistTitleFromFilename "NoSeparator".toList = ([], "NoSeparator".toList) :=
  ⟨by decide, (parse_without_separator "- OnlyTitle".toList (by decide)).1,
    (parse_without_separator "NoSeparator".toList (by decide)).1⟩

theorem seps_split (sep : QString) (hsep : sep ∈ seps) :
    ∃ post, seps = seps.takeWhile (fun x => x != sep) ++ sep :: post := by
  have h : sep = sepHyphen ∨ sep = sepEnDash ∨ sep = sepEmDash := by
    simpa [seps] using hsep
  rcases h with h | h | h <;> subst h
  · exact ⟨[sepEnDash, sepEmDash], by decide⟩
  · exact ⟨[sepEmDash], by decide⟩
  · exact ⟨[], by decide⟩

theorem seps_ne_nil (sep : QString) (hsep : sep ∈ seps) : sep ≠ [] := by
  intro e; subst e; revert hsep; decide

theorem trimmed_join (A M B : QString) (hA : trimmed A ≠ []) (hB : trimmed B ≠ []) :
    ∃ rA lB, A.dropWhile isSpace = trimmed A ++ rA ∧
      (∀ x ∈ rA, isSpace x = true) ∧ (∀ x ∈ lB, isSpace x = true) ∧
      trimmed (A ++ M ++ B) = (trimmed A ++ rA) ++ M ++ (lB ++ trimmed B) := by
  obtain ⟨lA, rA, hAeq, hlA, hrA⟩ := trimmed_decomp A
  obtain ⟨lB, rB, hBeq, hlB, hrB⟩ := trimmed_decomp B
  obtain ⟨ha1, ha2⟩ := trimmed_tight A
  obtain ⟨hb1, hb2⟩ := trimmed_tight B
  have hdrop : A.dropWhile isSpace = trimmed A ++ rA := by
    conv_lhs => rw [hAeq]
    rw [List.append_assoc, List.dropWhile_append_of_pos hlA,
      dropWhile_append_of_ne_nil _ _ _ (by rw [ha1]; exact hA), ha1]
  refine ⟨rA, lB, hdrop, hrA, hlB, ?_⟩
  have hcore : A ++ M ++ B
      = lA ++ ((trimmed A ++ rA) ++ M ++ (lB ++ trimmed B)) ++ rB := by
    conv_lhs => rw [hAeq, hBeq]
    simp only [List.append_assoc]
  rw [hcore]
  apply trimmed_compose _ _ _ hlA hrB
  · intro h
    have : trimmed A = [] := by
      have := congrArg List.length h
      simp only [List.length_append, List.length_nil] at this
      exact List.length_eq_zero.mp (by omega)
    exact hA this
  · rw [List.append_assoc, List.append_assoc,
      dropWhile_append_of_ne_nil _ _ _ (by rw [ha1]; exact hA), ha1]
  · rw [← List.append_assoc, rdropWhile_append_of_ne_nil _ _ _ (by rw [hb2]; exact hB), hb2]

/-! ## C7: artist and title around a separator -/

/-- C7 as stated fails when `A` itself holds a separator: for `A = "X - Y"`,
`B = "Z"` and the hyphen separator, both non-empty after trimming, the parser splits
`X - Y - Z` at the first hyphen separator and yields artist `X` and title `Y - Z`, not
artist `X - Y` and title `Z`. -/
theorem parse_splits_at_first_separator :
    trimmed "X - Y".toList ≠ [] ∧ trimmed "Z".toList ≠ [] ∧ sepHyphen ∈ seps ∧
    parseArtistTitleFromFilename ("X - Y".toList ++ sepHyphen ++ "Z".toList)
      = ("X".toList, "Y - Z".toList) ∧
    parseArtistTitleFromFilename ("X - Y".toList ++ sepHyphen ++ "Z".toList)
      ≠ (trimmed "X - Y".toList, trimmed "Z".toList) := by
  decide

/-- C7, amended: for `A` and `B` non-empty after trimming and a separator `sep` among the
three, if the trimmed text `A + sep + B` contains no separator that is tried before `sep`
and no occurrence of `sep` that starts before the end of `A`, then
`parseArtistTitleFromFilename` yields artist `A` trimmed and title `B` trimmed. -/
theorem parse_artist_title (A B sep : QString) (hsep : sep ∈ seps)
    (hA : trimmed A ≠ []) (hB : trimmed B ≠ [])
    (hearlier : ∀ sep' ∈ seps.takeWhile (fun x => x != sep),
      ∀ i, i < (trimmed (A ++ sep ++ B)).length → ¬ sep' <+: (trimmed (A ++ sep ++ B)).drop i)
    (hfirst : ∀ i, i < (A.dropWhile isSpace).length →
      ¬ sep <+: (trimmed (A ++ sep ++ B)).drop i) :
    parseArtistTitleFromFilename (A ++ sep ++ B) = (trimmed A, trimmed B) := by
  obtain ⟨rA, lB, hdrop, hrA, hlB, hs⟩ := trimmed_join A sep B hA hB
  obtain ⟨post, hpost⟩ := seps_split sep hsep
  obtain ⟨ha1, ha2⟩ := trimmed_tight A
  obtain ⟨hb1, hb2⟩ := trimmed_tight B
  unfold parseArtistTitleFromFilename
  rw [hpost, parseLoop_skip]
  swap
  · intro x hx
    have hx' : x ∈ seps := by rw [hpost]; exact List.mem_append_left _ hx
    rw [indexOf_none_of_bounded x _ (seps_ne_nil x hx') (hearlier x hx)]
    omega
  rw [hdrop] at hfirst
  rw [hs] at hfirst ⊢
  have hn : indexOf (trimmed A ++ rA ++ sep ++ (lB ++ trimmed B)) sep
      = ((trimmed A ++ rA).length : Nat) := by
    apply indexOf_first
    · simp only [List.length_append]; omega
    · rw [List.append_assoc, List.drop_left]
      exact List.prefix_append _ _
    · exact hfirst
  have hpos : 0 < (trimmed A ++ rA).length := by
    have : 0 < (trimmed A).length := List.length_pos.mpr hA
    rw [List.length_append]; omega
  have hleft : left (trimmed A ++ rA ++ sep ++ (lB ++ trimmed B)) ((trimmed A ++ rA).length : Nat)
      = trimmed A ++ rA := by
    unfold left
    have : ¬ (((trimmed A ++ rA).length : Nat) : Int) < 0 := by omega
    rw [if_neg this, Int.toNat_ofNat, List.append_assoc, List.take_left]
  have hmid : mid (trimmed A ++ rA ++ sep ++ (lB ++ trimmed B))
      ((((trimmed A ++ rA).length : Nat) : Int) + sep.length) = lB ++ trimmed B := by
    unfold mid
    have h1 : ¬ ((((trimmed A ++ rA).length : Nat) : Int) + sep.length
        > ((trimmed A ++ rA ++ sep ++ (lB ++ trimmed B)).length : Nat)) := by
      simp only [List.length_append]; push_cast; omega
    have h2 : ((((trimmed A ++ rA).length : Nat) : Int) + sep.length).toNat
        = (trimmed A ++ rA ++ sep).length := by
      rw [List.length_append (trimmed A ++ rA) sep]; omega
    rw [if_neg h1, h2, List.drop_left]
  have hartist : trimmed (trimmed A ++ rA) = trimmed A := by
    have := trimmed_compose [] (trimmed A) rA (by simp) hrA hA ha1 ha2
    simpa using this
  have htitle : trimmed (lB ++ trimmed B) = trimmed B := by
    have := trimmed_compose lB (trimmed B) [] hlB (by simp) hB hb1 hb2
    simpa using this
  rw [parseLoop_hit _ _ _ (by rw [hn]; exact_mod_cast hpos) (by rw [hn, hmid, htitle]; exact hB)]
  rw [hn, hleft, hmid, hartist, htitle]

/-- C7 (amended) at a concrete input: the en dash separator between an artist and a
title that carry white space at the outer ends. -/
theorem parse_artist_title_witness :
    (sepEnDash ∈ seps ∧ trimmed " Daft Punk".toList ≠ [] ∧ trimmed "One More Time ".toList ≠ []) ∧
    parseArtistTitleFromFilename (" Daft Punk".toList ++ sepEnDash ++ "One More Time ".toList)
      = ("Daft Punk".toList, "One More Time".toList) :=
  ⟨⟨by decide, by decide, by decide⟩,
    parse_artist_title " Daft Punk".toList "One More Time ".toList sepEnDash
      (by decide) (by decide) (by decide) (by decide) (by decide)⟩

theorem loadIndex_wasPlaying (env : Env) (s : Player) (r : Int) :
    (loadIndex env s r).2.wasPlaying = s.wasPlaying := by
  unfold loadIndex; dsimp only; split_ifs <;> rfl

theorem autoAdvance_wasPlaying (env : Env) (s : Player) :
    (autoAdvance env s).wasPlaying = false := by
  unfold autoAdvance; dsimp only
  split_ifs <;> simp only [loadIndex_wasPlaying]

theorem tickFires_iff (st : Status) (s : Player) :
    tickFires st s = true ↔
      (s.playlistFullPaths ≠ [] ∧ 0 ≤ s.currentIndex) ∧
        st = Status.Stopped ∧ s.stoppedByUser = false ∧ s.wasPlaying = true := by
  unfold tickFires autoAdvanceFires afterStatusRead engineStatus
  cases st <;> simp [List.isEmpty_iff]

theorem tick_eq (env : Env) (st : Status) (s : Player) :
    tickObserving env st s
      = (let s2 :=
          if tickFires st s then autoAdvance env (afterStatusRead st s)
          else afterStatusRead st s
        let s3 : Player := { s2 with tickCounter := s2.tickCounter + 1 }
        if s3.tickCounter ≥ 5 then saveSession { s3 with tickCounter := 0 } false else s3) := by
  unfold tickObserving tick tickFires afterStatusRead
  cases st <;> rfl

theorem tickObserving_wasPlaying (env : Env) (st : Status) (s : Player) :
    (tickObserving env st s).wasPlaying
      = (if tickFires st s then autoAdvance env (afterStatusRead st s)
          else afterStatusRead st s).wasPlaying := by
  rw [tick_eq]; dsimp only
  split_ifs <;> simp only [saveSession_wasPlaying]

theorem tickObserving_currentIndex (env : Env) (st : Status) (s : Player) :
    (tickObserving env st s).currentIndex
      = (if tickFires st s then autoAdvance env (afterStatusRead st s)
          else afterStatusRead st s).currentIndex := by
  rw [tick_eq]; dsimp only
  split_ifs <;> simp only [saveSession_currentIndex]

theorem tickObserving_music (env : Env) (st : Status) (s : Player) :
    (tickObserving env st s).music
      = (if tickFires st s then autoAdvance env (afterStatusRead st s)
          else afterStatusRead st s).music := by
  rw [tick_eq]; dsimp only
  split_ifs <;> simp only [saveSession_music]

theorem afterStatusRead_wasPlaying (st : Status) (s : Player) (hst : st ≠ Status.Playing) :
    (afterStatusRead st s).wasPlaying = s.wasPlaying := by
  unfold afterStatusRead; rw [if_neg hst]; rfl

theorem afterStatusRead_currentIndex (st : Status) (s : Player) :
    (afterStatusRead st s).currentIndex = s.currentIndex := by
  unfold afterStatusRead; split_ifs <;> rfl

theorem afterStatusRead_music (st : Status) (s : Player) :
    (afterStatusRead st s).music = (engineStatus st s).music := by
  unfold afterStatusRead; split_ifs <;> rfl

theorem tickObserving_wasPlaying_of_fires (env : Env) (st : Status) (s : Player)
    (h : tickFires st s = true) : (tickObserving env st s).wasPlaying = false := by
  rw [tickObserving_wasPlaying, if_pos h, autoAdvance_wasPlaying]

theorem tickObserving_wasPlaying_stays (env : Env) (st : Status) (s : Player)
    (hst : st ≠ Status.Playing) (hw : s.wasPlaying = false) :
    (tickObserving env st s).wasPlaying = false := by
  rw [tickObserving_wasPlaying]
  split_ifs
  · exact autoAdvance_wasPlaying _ _
  · rw [afterStatusRead_wasPlaying st s hst]; exact hw

theorem tickObserving_idle (env : Env) (st : Status) (s : Player)
    (h : tickFires st s = false) :
    (tickObserving env st s).currentIndex = s.currentIndex ∧
    (tickObserving env st s).music = (engineStatus st s).music := by
  have h' : ¬ tickFires st s = true := by simp [h]
  rw [tickObserving_currentIndex, tickObserving_music, if_neg h']
  exact ⟨afterStatusRead_currentIndex st s, afterStatusRead_music st s⟩

theorem runTicks_append (l1 l2 : List (Env × Status)) (s : Player) :
    runTicks (l1 ++ l2) s = runTicks l2 (runTicks l1 s) := by
  induction l1 generalizing s with
  | nil => rfl
  | cons t rest ih => rw [List.cons_append, runTicks, runTicks, ih]

theorem runTicks_wasPlaying_stays (l : List (Env × Status)) :
    ∀ s : Player, s.wasPlaying = false → Status.Playing ∉ l.map Prod.snd →
      (runTicks l s).wasPlaying = false := by
  induction l with
  | nil => intro s hw _; exact hw
  | cons t rest ih =>
    intro s hw hno
    simp only [List.map_cons, List.mem_cons, not_or] at hno
    simp only [runTicks]
    exact ih _ (tickObserving_wasPlaying_stays t.1 t.2 s (fun e => hno.1 e.symm) hw) hno.2

/-! ## C9: auto-advance once per stop -/

/-- C9: in a run of timer ticks with arbitrary environments and statuses read and
nothing else in between, a tick that moves the cursor or commands the engine has entered
the auto-advance branch; that branch is entered only when the status read is stopped,
`stoppedByUser` is false and `wasPlaying` is true; `wasPlaying` is false after such a
tick whatever the outcome of the load; and between two ticks that enter the branch there
is a tick that read the status playing. -/
theorem autoAdvance_once_per_stop (s : Player) (pre mid : List (Env × Status))
    (a b : Env × Status) :
    (∀ (env : Env) (st : Status) (t : Player),
      ((tickObserving env st t).currentIndex ≠ t.currentIndex ∨
        (tickObserving env st t).music ≠ (engineStatus st t).music) →
      tickFires st t = true) ∧
    (∀ (env : Env) (st : Status) (t : Player), tickFires st t = true →
      st = Status.Stopped ∧ t.stoppedByUser = false ∧ t.wasPlaying = true ∧
      (tickObserving env st t).wasPlaying = false) ∧
    (tickFires a.2 (runTicks pre s) = true →
      tickFires b.2 (runTicks (pre ++ a :: mid) s) = true →
      Status.Playing ∈ mid.map Prod.snd) := by
  refine ⟨?_, ?_, ?_⟩
  · intro env st t h
    by_contra hf
    have hf' : tickFires st t = false := by simpa using hf
    obtain ⟨h1, h2⟩ := tickObserving_idle env st t hf'
    rcases h with h | h
    · exact h h1
    · exact h h2
  · intro env st t h
    have h' := (tickFires_iff st t).mp h
    exact ⟨h'.2.1, h'.2.2.1, h'.2.2.2, tickObserving_wasPlaying_of_fires env st t h⟩
  · intro ha hb
    by_contra hno
    have hsplit : runTicks (pre ++ a :: mid) s
        = runTicks mid (tickObserving a.1 a.2 (runTicks pre s)) := by
      rw [runTicks_append, runTicks]
    rw [hsplit] at hb
    have hw := runTicks_wasPlaying_stays mid _
      (tickObserving_wasPlaying_of_fires a.1 a.2 _ ha) hno
    have := ((tickFires_iff _ _).mp hb).2.2.2
    rw [hw] at this
    exact absurd this (by simp)

/-- C9 on a concrete run: after a folder is loaded and the first track is played, the
ticks read playing, stopped, stopped, playing, stopped; the second and the fifth tick
enter the auto-advance branch, and a tick that read playing lies between them. -/
theorem autoAdvance_once_per_stop_witness :
    (tickFires Status.Stopped
        (runTicks [(demoEnv, Status.Playing)]
          (onDoubleClick demoEnv (loadFolder demoEnv (fresh noSettings) "music".toList) 0))
        = true ∧
      tickFires Status.Stopped
        (runTicks
          ([(demoEnv, Status.Playing)] ++ (demoEnv, Status.Stopped) ::
            [(demoEnv, Status.Stopped), (demoEnv, Status.Playing)])
          (onDoubleClick demoEnv (loadFolder demoEnv (fresh noSettings) "music".toList) 0))
        = true) ∧
    Status.Playing ∈
      ([(demoEnv, Status.Stopped), (demoEnv, Status.Playing)] :
        List (Env × Status)).map Prod.snd :=
  ⟨⟨by decide, by decide⟩,
    (autoAdvance_once_per_stop
      (onDoubleClick demoEnv (loadFolder demoEnv (fresh noSettings) "music".toList) 0)
      [(demoEnv, Status.Playing)] [(demoEnv, Status.Stopped), (demoEnv, Status.Playing)]
      (demoEnv, Status.Stopped) (demoEnv, Status.Stopped)).2.2 (by decide) (by decide)⟩

theorem addFiles_lastLoadedFolder (env : Env) (s : Player) (paths : List QString) :
    (addFiles env s paths).lastLoadedFolder = s.lastLoadedFolder := by
  unfold addFiles; dsimp only; split_ifs <;> rfl

theorem loadFolder_lastLoadedFolder (env : Env) (s : Player) (folder : QString) :
    (loadFolder env s folder).lastLoadedFolder = folder := by
  unfold loadFolder; dsimp only
  split_ifs <;> simp only [Player.notify, addFiles_lastLoadedFolder]

theorem loadIndex_ok (env : Env) (s : Player) (r : Int)
    (hr : 0 ≤ r ∧ r < s.playlistFullPaths.length)
    (he : env.qExists (s.playlistFullPaths.getD r.toNat []) = true)
    (ho : env.canOpen (s.playlistFullPaths.getD r.toNat []) = true) :
    loadIndex env s r
      = (true,
          { s with
            music :=
              { s.music with
                status := Status.Stopped
                opened := some (s.playlistFullPaths.getD r.toNat [])
                offset := 0 }
            currentIndex := r }) := by
  have hg : ¬ (r < 0 ∨ r ≥ s.playlistFullPaths.length) := by omega
  unfold loadIndex
  rw [if_neg hg]
  simp only [he, ho, Bool.not_true, Bool.false_eq_true, if_false, if_true,
    Music.openFromFile, Music.stop]

theorem saveSession_forced (s : Player) (h : s.lastLoadedFolder ≠ []) :
    (saveSession s true).settings
      = { lastFolder := some s.lastLoadedFolder
          lastIndex := some s.currentIndex
          lastOffsetSeconds := some s.music.offset
          wasPlaying := some (decide (s.music.status = Status.Playing)) } := by
  unfold saveSession
  have : s.lastLoadedFolder.isEmpty = false := by
    cases h' : s.lastLoadedFolder with
    | nil => exact absurd h' h
    | cons a l => rfl
  simp [this]

/-! ## C10: session round trip -/

theorem bitsAux_eq (fuel : Nat) : ∀ n : Nat, n ≤ fuel →
    bitsAux fuel n = if n = 0 then 0 else Nat.log2 n + 1 := by
  induction fuel with
  | zero =>
    intro n h
    have : n = 0 := by omega
    simp [bitsAux, this]
  | succ f ih =>
    intro n h
    unfold bitsAux
    by_cases h0 : n = 0
    · simp [h0]
    · rw [if_neg h0, if_neg h0, ih (n / 2) (by omega)]
      have e : Nat.log2 n = if 2 ≤ n then Nat.log2 (n / 2) + 1 else 0 := by
        rw [Nat.log2]
      rw [e]
      by_cases h2 : 2 ≤ n
      · have : n / 2 ≠ 0 := by omega
        rw [if_neg this, if_pos h2]
      · have : n / 2 = 0 := by omega
        rw [if_pos this, if_neg h2]

/-- The count of binary digits by halving never runs short: for a positive number it is
one more than the binary logarithm. -/
theorem bitLength_eq (n : Nat) (h : 0 < n) : bitLength n = Nat.log2 n + 1 := by
  unfold bitLength
  rw [bitsAux_eq n n (Nat.le_refl n), if_neg (by omega)]

/-- The rounding to `float` at some values: 37500001 becomes 37500000 (multiples of four
only between `2 ^ 25` and `2 ^ 26`), 37500000 over 1000000 is 37.5, a third becomes
`11184811 / 2 ^ 25`, and a tie goes to the even neighbour. -/
theorem roundToFloat_examples :
    roundToFloat 37500001 1 = (37500000, 1) ∧
    roundToFloat 37500000 1000000 = (75 * 2 ^ 17, 2 ^ 18) ∧
    roundToFloat 1 3 = (11184811, 2 ^ 25) ∧
    roundToFloat (2 ^ 24 + 1) 1 = (2 ^ 24, 1) ∧
    roundToFloat (2 ^ 24 + 3) 1 = (2 ^ 24 + 4, 1) := by
  decide

theorem timeThroughSeconds_example :
    timeThroughSeconds 37500000 = 37500000 ∧ timeThroughSeconds 37500001 = 37500000 ∧
    timeThroughSeconds 247 = 246 := by
  decide

theorem restore_after_save (env : Env) (s : Player)
    (hF : env.qExists s.lastLoadedFolder = true)
    (hn : (env.dirFiles s.lastLoadedFolder).Nodup)
    (he : ∀ p ∈ env.dirFiles s.lastLoadedFolder, env.qExists p = true)
    (hperm : (env.stdSort (lowerLess env)
        ((env.dirFiles s.lastLoadedFolder).filter isSupportedAudio)).Perm
      ((env.dirFiles s.lastLoadedFolder).filter isSupportedAudio))
    (hi : 0 ≤ s.currentIndex ∧
      s.currentIndex < ((env.dirFiles s.lastLoadedFolder).filter isSupportedAudio).length)
    (ho : env.canOpen
      ((env.stdSort (lowerLess env)
          ((env.dirFiles s.lastLoadedFolder).filter isSupportedAudio)).getD
        s.currentIndex.toNat []) = true) :
    (startup env (saveSession s true).settings).lastLoadedFolder = s.lastLoadedFolder ∧
    (startup env (saveSession s true).settings).playlistFullPaths
      = env.stdSort (lowerLess env)
          ((env.dirFiles s.lastLoadedFolder).filter isSupportedAudio) ∧
    (startup env (saveSession s true).settings).currentIndex = s.currentIndex ∧
    (startup env (saveSession s true).settings).music.opened
      = some ((env.stdSort (lowerLess env)
          ((env.dirFiles s.lastLoadedFolder).filter isSupportedAudio)).getD
          s.currentIndex.toNat []) ∧
    (startup env (saveSession s true).settings).music.offset
      = timeThroughSeconds s.music.offset ∧
    (startup env (saveSession s true).settings).music.status
      = (if s.music.status = Status.Playing then Status.Playing
          else env.pauseWhenIdle Status.Stopped) := by
  have hFne : s.lastLoadedFolder ≠ [] := by
    intro e; rw [e] at hF; simp [Env.qExists] at hF
  have hFe : s.lastLoadedFolder.isEmpty = false := by
    cases h' : s.lastLoadedFolder with
    | nil => exact absurd h' hFne
    | cons a l => rfl
  rw [saveSession_forced s hFne]
  obtain ⟨hi1, hi2⟩ := hi
  unfold startup restoreLastSession
  have e1 : ∀ st : Settings, (fresh st).settings = st := fun _ => rfl
  simp only [e1, Option.getD_some, hFe, hF, Bool.not_true, Bool.false_eq_true, if_false]
  generalize hs1 : loadFolder env (fresh _) s.lastLoadedFolder = s1
  have hpl : s1.playlistFullPaths
      = env.stdSort (lowerLess env)
          ((env.dirFiles s.lastLoadedFolder).filter isSupportedAudio) := by
    rw [← hs1]; exact loadFolder_playlist_of_listing env _ _ hn he hperm
  have hfold : s1.lastLoadedFolder = s.lastLoadedFolder := by
    rw [← hs1]; exact loadFolder_lastLoadedFolder env _ _
  have hlen : (s1.playlistFullPaths.length : Int)
      = ((env.dirFiles s.lastLoadedFolder).filter isSupportedAudio).length := by
    rw [hpl, hperm.length_eq]
  have hr : 0 ≤ s.currentIndex ∧ s.currentIndex < s1.playlistFullPaths.length := by omega
  have hex : env.qExists (s1.playlistFullPaths.getD s.currentIndex.toNat []) = true := by
    have hlt : s.currentIndex.toNat < s1.playlistFullPaths.length := by omega
    have hmem : s1.playlistFullPaths.getD s.currentIndex.toNat [] ∈ s1.playlistFullPaths := by
      rw [List.getD_eq_getElem _ _ hlt]; exact List.getElem_mem _
    rw [hpl] at hmem ⊢
    exact he _ (List.mem_filter.mp (hperm.mem_iff.mp hmem)).1
  have hop : env.canOpen (s1.playlistFullPaths.getD s.currentIndex.toNat []) = true := by
    rw [hpl]; exact ho
  rw [loadIndex_ok env s1 _ hr hex hop]
  simp only [hr, and_self, if_true]
  by_cases hp : s.music.status = Status.Playing
  · simp [hp, Music.setPlayingOffset, Music.play, hfold, hpl]
  · simp [hp, Music.setPlayingOffset, Music.pause, hfold, hpl]

/-- C10, refuted as stated: a controller with folder `music`, cursor 2 and the engine
playing at 37.500001 seconds (37500001 microseconds) saves its session; the listing of
the folder has three supported files, all existing and accepted.  The restore on a fresh
controller seeks to 37500000 microseconds, not to the offset the engine had: the offset
is saved as the `float` seconds value 37.5, all that `float` keeps of it. -/
theorem session_roundtrip_changes_offset :
    (sessionEnv.qExists offBeatPlayer.lastLoadedFolder = true ∧
      (0 ≤ offBeatPlayer.currentIndex ∧
        offBeatPlayer.currentIndex
          < ((sessionEnv.dirFiles offBeatPlayer.lastLoadedFolder).filter
              isSupportedAudio).length)) ∧
    offBeatPlayer.music.offset = 37500001 ∧
    (startup sessionEnv (saveSession offBeatPlayer true).settings).currentIndex = 2 ∧
    (startup sessionEnv (saveSession offBeatPlayer true).settings).music.opened
      = some "c.flac".toList ∧
    (startup sessionEnv (saveSession offBeatPlayer true).settings).music.offset = 37500000 ∧
    (startup sessionEnv (saveSession offBeatPlayer true).settings).music.offset
      ≠ offBeatPlayer.music.offset := by
  have h := restore_after_save sessionEnv offBeatPlayer (by decide) (by decide) (by decide)
    (by decide) (by decide) (by decide)
  refine ⟨⟨by decide, by decide⟩, rfl, h.2.2.1, h.2.2.2.1, ?_, ?_⟩
  · rw [h.2.2.2.2.1]; exact timeThroughSeconds_example.2.1
  · rw [h.2.2.2.2.1]
    have e : timeThroughSeconds offBeatPlayer.music.offset = 37500000 :=
      timeThroughSeconds_example.2.1
    rw [e]
    decide

/-- C10, amended: let `saveSession(true)` run in a state whose folder `F` exists, whose
cursor `i` satisfies `0 <= i < n` for the `n` supported files of the listing of `F` (a
listing of distinct existing files, of which `std::sort` returns a rearrangement), with
the file at `i` of the sorted files accepted by the engine, with engine offset `t` and
engine playing `p`.  Then `restoreLastSession` on a fresh controller over the same storage
ends with folder `F` loaded, the playlist the sorted supported files, cursor `i`, the
track at `i` open in the engine, and the engine offset set to what `sf::seconds` makes of
the `float` seconds value of `t`; that is `t` itself whenever `t` survives the conversion
to `float` seconds and back, as 37.5 seconds does.  The engine is playing if `p`;
otherwise `pause()` has been called on the opened, stopped stream, which is paused if
the engine pauses a stopped stream. -/
theorem session_roundtrip (env : Env) (s : Player)
    (hF : env.qExists s.lastLoadedFolder = true)
    (hn : (env.dirFiles s.lastLoadedFolder).Nodup)
    (he : ∀ p ∈ env.dirFiles s.lastLoadedFolder, env.qExists p = true)
    (hperm : (env.stdSort (lowerLess env)
        ((env.dirFiles s.lastLoadedFolder).filter isSupportedAudio)).Perm
      ((env.dirFiles s.lastLoadedFolder).filter isSupportedAudio))
    (hi : 0 ≤ s.currentIndex ∧
      s.currentIndex < ((env.dirFiles s.lastLoadedFolder).filter isSupportedAudio).length)
    (ho : env.canOpen
      ((env.stdSort (lowerLess env)
          ((env.dirFiles s.lastLoadedFolder).filter isSupportedAudio)).getD
        s.currentIndex.toNat []) = true) :
    (startup env (saveSession s true).settings).lastLoadedFolder = s.lastLoadedFolder ∧
    (startup env (saveSession s true).settings).playlistFullPaths
      = env.stdSort (lowerLess env)
          ((env.dirFiles s.lastLoadedFolder).filter isSupportedAudio) ∧
    (startup env (saveSession s true).settings).currentIndex = s.currentIndex ∧
    (startup env (saveSession s true).settings).music.opened
      = some ((env.stdSort (lowerLess env)
          ((env.dirFiles s.lastLoadedFolder).filter isSupportedAudio)).getD
          s.currentIndex.toNat []) ∧
    (startup env (saveSession s true).settings).music.offset
      = timeThroughSeconds s.music.offset ∧
    (timeThroughSeconds s.music.offset = s.music.offset →
      (startup env (saveSession s true).settings).music.offset = s.music.offset) ∧
    timeThroughSeconds 37500000 = 37500000 ∧
    (s.music.status = Status.Playing →
      (startup env (saveSession s true).settings).music.status = Status.Playing) ∧
    (s.music.status ≠ Status.Playing →
      (startup env (saveSession s true).settings).music.status
        = env.pauseWhenIdle Status.Stopped) ∧
    (s.music.status ≠ Status.Playing → env.pauseWhenIdle Status.Stopped = Status.Paused →
      (startup env (saveSession s true).settings).music.status = Status.Paused) := by
  obtain ⟨h1, h2, h3, h4, h5, h6⟩ := restore_after_save env s hF hn he hperm hi ho
  refine ⟨h1, h2, h3, h4, h5, fun e => h5.trans e, timeThroughSeconds_example.1, ?_, ?_, ?_⟩
  · intro hp; rw [h6, if_pos hp]
  · intro hp; rw [h6, if_neg hp]
  · intro hp hq; rw [h6, if_neg hp, hq]

/-- C10 at the round trip of the specification: folder `music`, index 2, offset
37.5 seconds, playing. -/
theorem session_roundtrip_witness :
    (sessionEnv.qExists sessionPlayer.lastLoadedFolder = true ∧
      (sessionEnv.dirFiles sessionPlayer.lastLoadedFolder).Nodup ∧
      (∀ p ∈ sessionEnv.dirFiles sessionPlayer.lastLoadedFolder, sessionEnv.qExists p = true) ∧
      (0 ≤ sessionPlayer.currentIndex ∧
        sessionPlayer.currentIndex
          < ((sessionEnv.dirFiles sessionPlayer.lastLoadedFolder).filter
              isSupportedAudio).length)) ∧
    (startup sessionEnv (saveSession sessionPlayer true).settings).lastLoadedFolder
      = "music".toList ∧
    (startup sessionEnv (saveSession sessionPlayer true).settings).playlistFullPaths
      = ["a.ogg".toList, "b.wav".toList, "c.flac".toList] ∧
    (startup sessionEnv (saveSession sessionPlayer true).settings).currentIndex = 2 ∧
    (startup sessionEnv (saveSession sessionPlayer true).settings).music.opened
      = some "c.flac".toList ∧
    (startup sessionEnv (saveSession sessionPlayer true).settings).music.offset = 37500000 ∧
    (startup sessionEnv (saveSession sessionPlayer true).settings).music.status
      = Status.Playing :=
  have h := session_roundtrip sessionEnv sessionPlayer (by decide) (by decide) (by decide)
    (by decide) (by decide) (by decide)
  ⟨⟨by decide, by decide, by decide, by decide⟩,
    h.1, h.2.1.trans (by decide), h.2.2.1, h.2.2.2.1.trans (by decide),
    h.2.2.2.2.2.1 timeThroughSeconds_example.1, h.2.2.2.2.2.2.2.1 rfl⟩

/-! ## C11: when saveSession writes -/

/-- C11: `saveSession(force)` overwrites the four stored fields with the current folder,
cursor, engine offset and playing status exactly when a folder has been loaded
(`lastLoadedFolder` is not empty) and `force` is true or the engine is playing, and
changes nothing else; in every other case the call leaves the whole state, the storage
in it, untouched.  A fresh controller has no loaded folder, and `loadFolder` records the
folder it is given. -/
theorem saveSession_spec (s : Player) (force : Bool) :
    (s.lastLoadedFolder ≠ [] ∧ (force = true ∨ s.music.status = Status.Playing) →
      saveSession s force
        = { s with
            settings :=
              { lastFolder := some s.lastLoadedFolder
                lastIndex := some s.currentIndex
                lastOffsetSeconds := some s.music.offset
                wasPlaying := some (decide (s.music.status = Status.Playing)) } }) ∧
    (¬ (s.lastLoadedFolder ≠ [] ∧ (force = true ∨ s.music.status = Status.Playing)) →
      saveSession s force = s) ∧
    (∀ st : Settings, (fresh st).lastLoadedFolder = [] ∧
      saveSession (fresh st) force = fresh st) ∧
    (∀ (env : Env) (F : QString), (loadFolder env s F).lastLoadedFolder = F) := by
  refine ⟨?_, ?_, fun st => ⟨rfl, rfl⟩, fun env F => loadFolder_lastLoadedFolder env s F⟩
  · rintro ⟨hF, hp⟩
    have hFe : s.lastLoadedFolder.isEmpty = false := by
      cases h' : s.lastLoadedFolder with
      | nil => exact absurd h' hF
      | cons a l => rfl
    unfold saveSession
    rcases hp with hp | hp
    · simp [hFe, hp]
    · simp [hFe, hp]
  · intro h
    unfold saveSession
    by_cases hF : s.lastLoadedFolder = []
    · simp [hF]
    · have hFe : s.lastLoadedFolder.isEmpty = false := by
        cases h' : s.lastLoadedFolder with
        | nil => exact absurd h' hF
        | cons a l => rfl
      have hp : ¬ (force = true ∨ s.music.status = Status.Playing) := fun hp => h ⟨hF, hp⟩
      rw [not_or] at hp
      simp [hFe, hp.1, hp.2]

/-- C11 at concrete states: a forced save while playing writes the four fields; an
unforced save of the same controller once paused leaves the storage untouched. -/
theorem saveSession_spec_witness :
    (sessionPlayer.lastLoadedFolder ≠ [] ∧
      (true = true ∨ sessionPlayer.music.status = Status.Playing)) ∧
    (saveSession sessionPlayer true).settings
      = { lastFolder := some "music".toList
          lastIndex := some 2
          lastOffsetSeconds := some 37500000
          wasPlaying := some true } ∧
    ¬ ((engineStatus Status.Paused sessionPlayer).lastLoadedFolder ≠ [] ∧
      (false = true ∨ (engineStatus Status.Paused sessionPlayer).music.status = Status.Playing)) ∧
    saveSession (engineStatus Status.Paused sessionPlayer) false
      = engineStatus Status.Paused sessionPlayer :=
  ⟨by decide,
    congrArg Player.settings ((saveSession_spec sessionPlayer true).1 (by decide)),
    by decide,
    (saveSession_spec (engineStatus Status.Paused sessionPlayer) false).2.1 (by decide)⟩

theorem getElem?_insertIdx_of_lt {α : Type} (x : α) :
    ∀ (l : List α) (n k : Nat), k < n → (l.insertIdx n x)[k]? = l[k]? := by
  intro l
  induction l with
  | nil =>
    intro n k h
    cases n with
    | zero => omega
    | succ n => rfl
  | cons a l ih =>
    intro n k h
    cases n with
    | zero => omega
    | succ n =>
      rw [List.insertIdx_succ_cons]
      cases k with
      | zero => simp
      | succ k =>
        simp only [List.getElem?_cons_succ]
        exact ih n k (by omega)

theorem playNextBranch_eq (s : Player) (r : Int)
    (hc : 0 ≤ s.currentIndex) (h1 : r ≠ s.currentIndex) (h2 : r ≠ s.currentIndex + 1) :
    playNextBranch s r
      = { s with
          playlistFullPaths :=
            (s.playlistFullPaths.eraseIdx r.toNat).insertIdx
              (if s.currentIndex + 1 > ((s.playlistFullPaths.eraseIdx r.toNat).length : Int)
                then ((s.playlistFullPaths.eraseIdx r.toNat).length : Int)
                else s.currentIndex + 1).toNat
              (s.playlistFullPaths.getD r.toNat [])
          currentIndex :=
            if r < s.currentIndex then s.currentIndex - 1 else s.currentIndex } := by
  unfold playNextBranch
  have h0 : ¬ s.currentIndex < 0 := by omega
  have h12 : ¬ (r = s.currentIndex ∨ r = s.currentIndex + 1) := by
    rintro (h | h)
    · exact h1 h
    · exact h2 h
  rw [if_neg h0, if_neg h12]

theorem playNextBranch_noop (s : Player) (r : Int)
    (h : s.currentIndex < 0 ∨ r = s.currentIndex ∨ r = s.currentIndex + 1) :
    playNextBranch s r = s := by
  unfold playNextBranch
  by_cases h0 : s.currentIndex < 0
  · rw [if_pos h0]
  · rw [if_neg h0, if_pos (h.resolve_left h0)]

/-! ## C13: what Play Next keeps -/

/-- C13: for Play Next on a row `r` of the playlist with a cursor `c`, `0 <= c < length`,
and `r` neither `c` nor `c+1`: the playlist afterwards is the old one with the entry at `r`
taken out and put back at one position (so it has the same length and the same entries,
and the other entries keep their relative order), and the new cursor, `c-1` when `r < c`
and `c` otherwise, indexes the same path as before.  When the cursor is `-1`, or `r = c`,
or `r = c+1`, the state is unchanged. -/
theorem playNext_keeps (env : Env) (s : Player) (r : Int)
    (hr : 0 ≤ r ∧ r < s.playlistFullPaths.length) :
    ((0 ≤ s.currentIndex ∧ s.currentIndex < s.playlistFullPaths.length) →
      r ≠ s.currentIndex → r ≠ s.currentIndex + 1 →
      (onContextMenu env s r MenuAction.actPlayNext).playlistFullPaths.length
        = s.playlistFullPaths.length ∧
      (onContextMenu env s r MenuAction.actPlayNext).playlistFullPaths.Perm
        s.playlistFullPaths ∧
      (∃ k, k ≤ (s.playlistFullPaths.eraseIdx r.toNat).length ∧
        (onContextMenu env s r MenuAction.actPlayNext).playlistFullPaths
          = (s.playlistFullPaths.eraseIdx r.toNat).insertIdx k
              (s.playlistFullPaths.getD r.toNat []) ∧
        ((onContextMenu env s r MenuAction.actPlayNext).playlistFullPaths).eraseIdx k
          = s.playlistFullPaths.eraseIdx r.toNat) ∧
      (onContextMenu env s r MenuAction.actPlayNext).currentIndex
        = (if r < s.currentIndex then s.currentIndex - 1 else s.currentIndex) ∧
      (onContextMenu env s r MenuAction.actPlayNext).playlistFullPaths[
          (onContextMenu env s r MenuAction.actPlayNext).currentIndex.toNat]?
        = s.playlistFullPaths[s.currentIndex.toNat]?) ∧
    ((s.currentIndex = -1 ∨ r = s.currentIndex ∨ r = s.currentIndex + 1) →
      onContextMenu env s r MenuAction.actPlayNext = s) := by
  obtain ⟨hr1, hr2⟩ := hr
  have hg : ¬ (r < 0 ∨ r ≥ s.playlistFullPaths.length) := by omega
  have hmenu : onContextMenu env s r MenuAction.actPlayNext = playNextBranch s r := by
    unfold onContextMenu; rw [if_neg hg]
  have hlt : r.toNat < s.playlistFullPaths.length := by omega
  have hlen : (s.playlistFullPaths.eraseIdx r.toNat).length
      = s.playlistFullPaths.length - 1 := by
    rw [List.length_eraseIdx]; simp [hlt]
  rw [hmenu]
  constructor
  · rintro ⟨hc1, hc2⟩ h1 h2
    have hperm := playNextBranch_perm s r ⟨hr1, hr2⟩
    refine ⟨hperm.length_eq, hperm, ?_, ?_, ?_⟩
    · rw [playNextBranch_eq s r hc1 h1 h2]
      refine ⟨_, ?_, rfl, List.eraseIdx_insertIdx _ _⟩
      split_ifs <;> omega
    · rw [playNextBranch_eq s r hc1 h1 h2]
    · rw [playNextBranch_eq s r hc1 h1 h2]
      dsimp only
      by_cases hrc : r < s.currentIndex
      · rw [if_pos hrc, getElem?_insertIdx_of_lt _ _ _ _ (by split_ifs <;> omega),
          List.getElem?_eraseIdx_of_ge _ _ _ (by omega)]
        congr 1; omega
      · rw [if_neg hrc, getElem?_insertIdx_of_lt _ _ _ _ (by split_ifs <;> omega),
          List.getElem?_eraseIdx_of_lt _ _ _ (by omega)]
  · intro h
    apply playNextBranch_noop
    rcases h with h | h | h
    · left; omega
    · right; left; exact h
    · right; right; exact h

/-- C13 at a concrete input: Play Next on row 0 of the four-track playlist with cursor 2;
the cursor becomes 1 and still indexes `c.wav`. -/
theorem playNext_keeps_witness :
    ((0 : Int) ≤ 0 ∧ (0 : Int) < demoPlayer.playlistFullPaths.length) ∧
    (onContextMenu demoEnv demoPlayer 0 MenuAction.actPlayNext).playlistFullPaths.length = 4 ∧
    (onContextMenu demoEnv demoPlayer 0 MenuAction.actPlayNext).currentIndex = 1 ∧
    (onContextMenu demoEnv demoPlayer 0 MenuAction.actPlayNext).playlistFullPaths[
        (onContextMenu demoEnv demoPlayer 0 MenuAction.actPlayNext).currentIndex.toNat]?
      = some "c.wav".toList :=
  ⟨by decide,
    ((playNext_keeps demoEnv demoPlayer 0 (by decide)).1 (by decide) (by decide)
      (by decide)).1,
    ((playNext_keeps demoEnv demoPlayer 0 (by decide)).1 (by decide) (by decide)
      (by decide)).2.2.2.1,
    ((playNext_keeps demoEnv demoPlayer 0 (by decide)).1 (by decide) (by decide)
      (by decide)).2.2.2.2⟩

/-! ## C14: a load that aborts -/

/-- C14: when the row is out of range, or the file at the row no longer exists on disk,
`loadIndex` returns false and leaves the playlist, the cursor and the engine unchanged
(the current track is not stopped); the only change is the message box shown for a
missing file. -/
theorem loadIndex_aborts (env : Env) (s : Player) (r : Int)
    (h : (r < 0 ∨ r ≥ s.playlistFullPaths.length) ∨
      env.qExists (s.playlistFullPaths.getD r.toNat []) = false) :
    (loadIndex env s r).1 = false ∧
    (loadIndex env s r).2.playlistFullPaths = s.playlistFullPaths ∧
    (loadIndex env s r).2.currentIndex = s.currentIndex ∧
    (loadIndex env s r).2.music = s.music ∧
    ((loadIndex env s r).2 = s ∨
      (loadIndex env s r).2
        = s.notify (Notice.fileMissing (s.playlistFullPaths.getD r.toNat []))) := by
  unfold loadIndex
  by_cases hg : r < 0 ∨ r ≥ s.playlistFullPaths.length
  · rw [if_pos hg]
    exact ⟨rfl, rfl, rfl, rfl, Or.inl rfl⟩
  · have he : env.qExists (s.playlistFullPaths.getD r.toNat []) = false := h.resolve_left hg
    have hn : (!env.qExists (s.playlistFullPaths.getD r.toNat [])) = true := by rw [he]; rfl
    rw [if_neg hg]
    dsimp only
    rw [if_pos hn]
    exact ⟨rfl, rfl, rfl, rfl, Or.inr rfl⟩

/-- C14 at concrete inputs: a row past the end, and the row of a file that has vanished
while another track is playing. -/
theorem loadIndex_aborts_witness :
    (((7 : Int) < 0 ∨ (7 : Int) ≥ sessionPlayer.playlistFullPaths.length) ∨
      sessionEnv.qExists (sessionPlayer.playlistFullPaths.getD (7 : Int).toNat []) = false) ∧
    (loadIndex sessionEnv sessionPlayer 7).1 = false ∧
    (loadIndex sessionEnv sessionPlayer 7).2.music = sessionPlayer.music ∧
    (loadIndex demoEnvMissing
        { sessionPlayer with
          playlistFullPaths := ["a.ogg".toList, "gone.wav".toList, "c.flac".toList] } 1).1
      = false ∧
    (loadIndex demoEnvMissing
        { sessionPlayer with
          playlistFullPaths := ["a.ogg".toList, "gone.wav".toList, "c.flac".toList] }
        1).2.music.status
      = Status.Playing :=
  ⟨by decide,
    (loadIndex_aborts sessionEnv sessionPlayer 7 (by decide)).1,
    (loadIndex_aborts sessionEnv sessionPlayer 7 (by decide)).2.2.2.1,
    (loadIndex_aborts demoEnvMissing
      { sessionPlayer with
        playlistFullPaths := ["a.ogg".toList, "gone.wav".toList, "c.flac".toList] } 1
      (by decide)).1,
    by decide⟩

theorem matches_of_same (s t : Player) (h1 : t.playlistFullPaths = s.playlistFullPaths)
    (h2 : t.currentIndex = s.currentIndex) (h3 : t.music.opened = s.music.opened)
    (hm : CursorMatchesEngine s) : CursorMatchesEngine t := by
  unfold CursorMatchesEngine at *
  rw [h1, h2, h3]; exact hm

theorem saveSession_matches (s : Player) (f : Bool) (hm : CursorMatchesEngine s) :
    CursorMatchesEngine (saveSession s f) :=
  matches_of_same s _ (saveSession_playlist s f) (saveSession_currentIndex s f)
    (by rw [saveSession_music]) hm

theorem playLoaded_matches (r : Bool × Player) (hm : CursorMatchesEngine r.2) :
    CursorMatchesEngine (playLoaded r) := by
  unfold playLoaded
  split_ifs
  · exact matches_of_same r.2 _ rfl rfl rfl hm
  · exact hm

theorem loadIndex_matches (env : Env) (s : Player) (r : Int) (hm : CursorMatchesEngine s)
    (ho : ∀ p ∈ s.playlistFullPaths, env.canOpen p = true) :
    CursorMatchesEngine (loadIndex env s r).2 := by
  by_cases hg : r < 0 ∨ r ≥ s.playlistFullPaths.length
  · have : loadIndex env s r = (false, s) := by unfold loadIndex; rw [if_pos hg]
    rw [this]; exact hm
  · by_cases he : env.qExists (s.playlistFullPaths.getD r.toNat []) = true
    · have hlt : r.toNat < s.playlistFullPaths.length := by omega
      have hmem : s.playlistFullPaths.getD r.toNat [] ∈ s.playlistFullPaths := by
        rw [List.getD_eq_getElem _ _ hlt]; exact List.getElem_mem _
      rw [loadIndex_ok env s r (by omega) he (ho _ hmem)]
      intro _
      simp only [List.getD_eq_getElem _ _ hlt, List.getElem?_eq_getElem hlt]
    · have h := loadIndex_playlist env s r
      have hn : (!env.qExists (s.playlistFullPaths.getD r.toNat [])) = true := by
        simpa using he
      have : loadIndex env s r
          = (false, s.notify (Notice.fileMissing (s.playlistFullPaths.getD r.toNat []))) := by
        unfold loadIndex; rw [if_neg hg]; dsimp only; rw [if_pos hn]
      rw [this]
      exact matches_of_same s _ rfl rfl rfl hm

theorem addFiles_matches (env : Env) (s : Player) (paths : List QString)
    (hc : CursorOk s) (hm : CursorMatchesEngine s) :
    CursorMatchesEngine (addFiles env s paths) := by
  have hmusic : (addFiles env s paths).music = s.music := by
    unfold addFiles; dsimp only; split_ifs <;> rfl
  unfold CursorMatchesEngine at *
  rw [addFiles_playlist, addFiles_currentIndex, hmusic]
  intro h0
  obtain ⟨added, ha⟩ := addFilesLoop_extends env paths (s.playlistFullPaths, [])
  rw [ha, hm h0]
  unfold CursorOk at hc
  have hlt : s.currentIndex.toNat < s.playlistFullPaths.length := by omega
  simp only
  rw [List.getElem?_append_left hlt]

theorem playNextBranch_cursor_path (s : Player) (r : Int)
    (hr : 0 ≤ r ∧ r < s.playlistFullPaths.length)
    (hc : 0 ≤ s.currentIndex ∧ s.currentIndex < s.playlistFullPaths.length) :
    (playNextBranch s r).playlistFullPaths[(playNextBranch s r).currentIndex.toNat]?
      = s.playlistFullPaths[s.currentIndex.toNat]? := by
  obtain ⟨hr1, hr2⟩ := hr
  obtain ⟨hc1, hc2⟩ := hc
  have hlt : r.toNat < s.playlistFullPaths.length := by omega
  have hlen : (s.playlistFullPaths.eraseIdx r.toNat).length
      = s.playlistFullPaths.length - 1 := by
    rw [List.length_eraseIdx]; simp [hlt]
  by_cases h : r = s.currentIndex ∨ r = s.currentIndex + 1
  · rw [playNextBranch_noop s r (Or.inr h)]
  · rw [not_or] at h
    rw [playNextBranch_eq s r hc1 h.1 h.2]
    dsimp only
    by_cases hrc : r < s.currentIndex
    · rw [if_pos hrc, getElem?_insertIdx_of_lt _ _ _ _ (by split_ifs <;> omega),
        List.getElem?_eraseIdx_of_ge _ _ _ (by omega)]
      congr 1; omega
    · rw [if_neg hrc, getElem?_insertIdx_of_lt _ _ _ _ (by split_ifs <;> omega),
        List.getElem?_eraseIdx_of_lt _ _ _ (by omega)]

theorem playNextBranch_music (s : Player) (r : Int) : (playNextBranch s r).music = s.music := by
  unfold playNextBranch; dsimp only; split_ifs <;> rfl

theorem playNextBranch_matches (s : Player) (r : Int)
    (hr : 0 ≤ r ∧ r < s.playlistFullPaths.length) (hc : CursorOk s)
    (hm : CursorMatchesEngine s) : CursorMatchesEngine (playNextBranch s r) := by
  by_cases h0 : 0 ≤ s.currentIndex
  · have hc' : 0 ≤ s.currentIndex ∧ s.currentIndex < s.playlistFullPaths.length := by
      unfold CursorOk at hc; omega
    intro _
    rw [playNextBranch_cursor_path s r hr hc', playNextBranch_music]
    exact hm h0
  · rw [playNextBranch_noop s r (Or.inl (by omega))]
    exact hm

theorem removeBranch_matches (s : Player) (r : Int)
    (hr : 0 ≤ r ∧ r < s.playlistFullPaths.length)
    (hm : CursorMatchesEngine s) : CursorMatchesEngine (removeBranch s r) := by
  unfold CursorMatchesEngine at *
  unfold removeBranch; dsimp only
  split_ifs with h1 h2
  · intro h; simp at h
  · dsimp only
    intro _
    rw [List.getElem?_eraseIdx_of_ge _ _ _ (by omega), hm (by omega)]
    congr 1; omega
  · intro h0
    have : r > s.currentIndex := by omega
    rw [List.getElem?_eraseIdx_of_lt _ _ _ (by omega), hm h0]

theorem onContextMenu_matches (env : Env) (s : Player) (r : Int) (chosen : MenuAction)
    (hc : CursorOk s) (hm : CursorMatchesEngine s)
    (ho : ∀ p ∈ s.playlistFullPaths, env.canOpen p = true) :
    CursorMatchesEngine (onContextMenu env s r chosen) := by
  unfold onContextMenu
  split_ifs with h
  · exact hm
  · have hr : 0 ≤ r ∧ r < s.playlistFullPaths.length := by omega
    cases chosen
    · exact playLoaded_matches _ (loadIndex_matches env s r hm ho)
    · exact playNextBranch_matches s r hr hc hm
    · exact hm
    · exact removeBranch_matches s r hr hm

theorem togglePlayPause_matches (env : Env) (s : Player) (hm : CursorMatchesEngine s)
    (ho : ∀ p ∈ s.playlistFullPaths, env.canOpen p = true) :
    CursorMatchesEngine (togglePlayPause env s) := by
  have hl := loadIndex_matches env s 0 hm ho
  unfold togglePlayPause; dsimp only
  split_ifs <;>
    first
    | exact hm
    | exact hl
    | exact matches_of_same s _ rfl rfl rfl hm
    | exact saveSession_matches _ _ (matches_of_same _ _ rfl rfl rfl hl)
    | exact saveSession_matches _ _ (matches_of_same _ _ rfl rfl rfl hm)

theorem next_matches (env : Env) (s : Player) (hm : CursorMatchesEngine s)
    (ho : ∀ p ∈ s.playlistFullPaths, env.canOpen p = true) :
    CursorMatchesEngine (next env s) := by
  unfold next; dsimp only
  split_ifs
  · exact hm
  · exact loadIndex_matches env s _ hm ho
  · exact saveSession_matches _ _ (playLoaded_matches _ (loadIndex_matches env s _ hm ho))

theorem prev_matches (env : Env) (s : Player) (hm : CursorMatchesEngine s)
    (ho : ∀ p ∈ s.playlistFullPaths, env.canOpen p = true) :
    CursorMatchesEngine (prev env s) := by
  unfold prev; dsimp only
  split_ifs
  · exact hm
  · exact loadIndex_matches env s _ hm ho
  · exact saveSession_matches _ _ (playLoaded_matches _ (loadIndex_matches env s _ hm ho))

theorem autoAdvance_matches (env : Env) (s : Player) (hm : CursorMatchesEngine s)
    (ho : ∀ p ∈ s.playlistFullPaths, env.canOpen p = true) :
    CursorMatchesEngine (autoAdvance env s) := by
  have h1 : CursorMatchesEngine { s with wasPlaying := false } := hm
  have hl := loadIndex_matches env { s with wasPlaying := false } (s.currentIndex + 1) h1 ho
  unfold autoAdvance; dsimp only
  split_ifs <;>
    first
    | exact h1
    | exact matches_of_same _ _ rfl rfl rfl hl

theorem tick_matches (env : Env) (s : Player) (hm : CursorMatchesEngine s)
    (ho : ∀ p ∈ s.playlistFullPaths, env.canOpen p = true) :
    CursorMatchesEngine (tick env s) := by
  have h1 : CursorMatchesEngine { s with wasPlaying := true } := hm
  have ha := autoAdvance_matches env s hm ho
  have ha1 := autoAdvance_matches env { s with wasPlaying := true } h1 ho
  unfold tick; dsimp only
  split_ifs <;>
    first
    | exact saveSession_matches _ _ (matches_of_same _ _ rfl rfl rfl ha1)
    | exact saveSession_matches _ _ (matches_of_same _ _ rfl rfl rfl ha)
    | exact saveSession_matches _ _ (matches_of_same _ _ rfl rfl rfl h1)
    | exact saveSession_matches _ _ (matches_of_same _ _ rfl rfl rfl hm)
    | exact matches_of_same _ _ rfl rfl rfl ha1
    | exact matches_of_same _ _ rfl rfl rfl ha
    | exact matches_of_same _ _ rfl rfl rfl h1

theorem step_matches (env : Env) (s : Player) (a : Action)
    (hc : CursorOk s) (hm : CursorMatchesEngine s)
    (ha : (∀ F, a ≠ Action.loadFolder F) ∧ a ≠ Action.restoreLastSession)
    (ho : ∀ p ∈ s.playlistFullPaths, env.canOpen p = true) :
    CursorMatchesEngine (step env s a) := by
  cases a with
  | loadFolder folderPath => exact absurd rfl (ha.1 folderPath)
  | addFiles filePaths => exact addFiles_matches env s filePaths hc hm
  | loadIndex sourceRow => exact loadIndex_matches env s sourceRow hm ho
  | doubleClick sourceRow => exact playLoaded_matches _ (loadIndex_matches env s sourceRow hm ho)
  | contextMenu sourceRow chosen => exact onContextMenu_matches env s sourceRow chosen hc hm ho
  | togglePlayPause => exact togglePlayPause_matches env s hm ho
  | stop => exact saveSession_matches _ _ (matches_of_same s _ rfl rfl rfl hm)
  | next => exact next_matches env s hm ho
  | prev => exact prev_matches env s hm ho
  | seekPressed => exact hm
  | seekReleased target =>
    cases target with
    | none => exact hm
    | some t => exact saveSession_matches _ _ (matches_of_same s _ rfl rfl rfl hm)
  | volumeChanged v => exact hm
  | tick => exact tick_matches env s hm ho
  | engine st => exact hm
  | restoreLastSession => exact absurd rfl ha.2
  | close => exact saveSession_matches _ _ hm

theorem loadIndex_success (env : Env) (s : Player) (r : Int)
    (h : (loadIndex env s r).1 = true) :
    (loadIndex env s r).2.currentIndex = r ∧
    (loadIndex env s r).2.music.opened = some (s.playlistFullPaths.getD r.toNat []) ∧
    (loadIndex env s r).2.playlistFullPaths[r.toNat]?
      = some (s.playlistFullPaths.getD r.toNat []) := by
  by_cases hg : r < 0 ∨ r ≥ s.playlistFullPaths.length
  · have : loadIndex env s r = (false, s) := by unfold loadIndex; rw [if_pos hg]
    rw [this] at h; simp at h
  · have hlt : r.toNat < s.playlistFullPaths.length := by omega
    by_cases he : env.qExists (s.playlistFullPaths.getD r.toNat []) = true
    · by_cases ho : env.canOpen (s.playlistFullPaths.getD r.toNat []) = true
      · rw [loadIndex_ok env s r (by omega) he ho]
        refine ⟨rfl, rfl, ?_⟩
        simp only [List.getD_eq_getElem _ _ hlt, List.getElem?_eq_getElem hlt]
      · exfalso
        revert h
        unfold loadIndex
        rw [if_neg hg]
        simp [he, ho, Music.openFromFile, -List.getD_eq_getElem?_getD]
    · exfalso
      revert h
      unfold loadIndex
      rw [if_neg hg]
      simp [he, -List.getD_eq_getElem?_getD]

theorem loadFolder_music (env : Env) (s : Player) (folder : QString) :
    (loadFolder env s folder).music = s.music.stop := by
  have hadd : ∀ (t : Player) (paths : List QString), (addFiles env t paths).music = t.music := by
    intro t paths
    unfold addFiles; dsimp only; split_ifs <;> rfl
  unfold loadFolder; dsimp only
  split_ifs <;> simp only [Player.notify, hadd]

/-! ## C12: cursor and engine -/

/-- C12, where the code departs from the specification: `loadFolder` that finds a track
sets the cursor to `0` and loads nothing, so the engine still holds what it held before
the folder was loaded (nothing, on a fresh controller); the state does not match cursor
and engine unless that happens to be the first track of the new playlist.  Play then
finds a cursor that is not negative, skips the load of row 0 and calls `play()` on the
engine as it is: the cursor stays `0` and the track at the cursor has not been opened. -/
theorem play_after_loadFolder_loads_nothing (env : Env) (s : Player) (F : QString)
    (h : (loadFolder env s F).playlistFullPaths ≠ []) :
    (loadFolder env s F).currentIndex = 0 ∧
    (loadFolder env s F).music.opened = s.music.opened ∧
    (s.music.opened ≠ (loadFolder env s F).playlistFullPaths[0]? →
      ¬ CursorMatchesEngine (loadFolder env s F)) ∧
    (togglePlayPause env (loadFolder env s F)).playlistFullPaths
      = (loadFolder env s F).playlistFullPaths ∧
    (togglePlayPause env (loadFolder env s F)).currentIndex = 0 ∧
    (togglePlayPause env (loadFolder env s F)).music.opened = s.music.opened ∧
    (togglePlayPause env (loadFolder env s F)).music = (loadFolder env s F).music.play ∧
    (togglePlayPause env (loadFolder env s F)).notices = (loadFolder env s F).notices := by
  have hcur : (loadFolder env s F).currentIndex = 0 := by
    rw [loadFolder_currentIndex]
    cases hl : (loadFolder env s F).playlistFullPaths with
    | nil => exact absurd hl h
    | cons a l => rfl
  have hmus := loadFolder_music env s F
  have hopen : (loadFolder env s F).music.opened = s.music.opened := by rw [hmus]; rfl
  have hst : (loadFolder env s F).music.status = Status.Stopped := by rw [hmus]; rfl
  have hne : (loadFolder env s F).playlistFullPaths.isEmpty = false := by
    cases hl : (loadFolder env s F).playlistFullPaths with
    | nil => exact absurd hl h
    | cons a l => rfl
  have htog : togglePlayPause env (loadFolder env s F)
      = saveSession
          { loadFolder env s F with
            music := (loadFolder env s F).music.play, stoppedByUser := false } true := by
    unfold togglePlayPause
    simp [hne, hcur, hst]
  refine ⟨hcur, hopen, ?_, ?_, ?_, ?_, ?_, ?_⟩
  · intro hdiff hm
    unfold CursorMatchesEngine at hm
    have h0 := hm (by rw [hcur])
    rw [hcur, hopen] at h0
    exact hdiff h0
  · rw [htog, saveSession_playlist]
  · rw [htog, saveSession_currentIndex]; exact hcur
  · rw [htog, saveSession_music]; exact hopen
  · rw [htog, saveSession_music]
  · rw [htog]; unfold saveSession; dsimp only; split_ifs <;> rfl

/-- C12 at two folders: with `old/x.wav` of the folder `old` playing, the folder `new` is
loaded; the playlist is `new/y.wav` with cursor 0, the engine still holds `old/x.wav`,
and Play starts `old/x.wav` with the cursor on `new/y.wav`. -/
theorem play_after_loadFolder_loads_nothing_witness :
    ((loadFolder twoFolderEnv oldFolderPlayer "new".toList).playlistFullPaths ≠ [] ∧
      Reachable oldFolderPlayer ∧
      oldFolderPlayer.music.opened = some "old/x.wav".toList) ∧
    (loadFolder twoFolderEnv oldFolderPlayer "new".toList).playlistFullPaths
      = ["new/y.wav".toList] ∧
    (togglePlayPause twoFolderEnv
      (loadFolder twoFolderEnv oldFolderPlayer "new".toList)).currentIndex = 0 ∧
    (togglePlayPause twoFolderEnv
      (loadFolder twoFolderEnv oldFolderPlayer "new".toList)).music.opened
      = some "old/x.wav".toList ∧
    (togglePlayPause twoFolderEnv
      (loadFolder twoFolderEnv oldFolderPlayer "new".toList)).music.status
      = Status.Playing :=
  have h := play_after_loadFolder_loads_nothing twoFolderEnv oldFolderPlayer "new".toList
    (by decide)
  ⟨⟨by decide,
      Reachable.step twoFolderEnv (Action.doubleClick 0)
        (Reachable.step twoFolderEnv (Action.loadFolder "old".toList)
          (Reachable.init noSettings)),
      by decide⟩,
    by decide, h.2.2.2.2.1, h.2.2.2.2.2.1.trans (by decide),
    (congrArg Music.status h.2.2.2.2.2.2.1).trans (by decide)⟩

theorem lit_eq_some (c : Char) (s r : QString) : lit c s = some r ↔ s = c :: r := by
  cases s with
  | nil => simp [lit]
  | cons x xs =>
    unfold lit
    by_cases h : x = c
    · simp [h]
    · simp [h]

theorem lit_cons_self (c : Char) (r : QString) : lit c (c :: r) = some r := by
  simp [lit]

theorem digits12_sound (k : QString → Option QString) (s r : QString)
    (h : digits12 k s = some r) :
    ∃ m s1, IsDigits12 m ∧ s = m ++ s1 ∧ k s1 = some r := by
  unfold digits12 at h
  cases s with
  | nil => simp at h
  | cons a t =>
    dsimp only at h
    by_cases ha : isDigit a = true
    · rw [if_pos ha] at h
      cases t with
      | nil =>
        exact ⟨[a], [], ⟨Or.inl rfl, by simpa using ha⟩, rfl, h⟩
      | cons b t2 =>
        dsimp only at h
        by_cases hb : isDigit b = true
        · rw [if_pos hb] at h
          cases hk : k t2 with
          | some out =>
            rw [hk] at h
            exact ⟨[a, b], t2, ⟨Or.inr rfl, by simp [ha, hb]⟩, rfl, by rw [hk]; exact h⟩
          | none =>
            rw [hk] at h
            exact ⟨[a], b :: t2, ⟨Or.inl rfl, by simpa using ha⟩, rfl, h⟩
        · rw [if_neg hb] at h
          exact ⟨[a], b :: t2, ⟨Or.inl rfl, by simpa using ha⟩, rfl, h⟩
    · rw [if_neg ha] at h; simp at h

theorem digits12_complete (k : QString → Option QString) (m s1 r : QString)
    (hm : IsDigits12 m) (hk : k s1 = some r)
    (hnext : ∀ b t, s1 = b :: t → isDigit b = false) :
    digits12 k (m ++ s1) = some r := by
  obtain ⟨hlen, hd⟩ := hm
  rcases hlen with h1 | h2
  · obtain ⟨a, rfl⟩ := List.length_eq_one.mp h1
    have ha : isDigit a = true := hd a (by simp)
    cases s1 with
    | nil => simp [digits12, ha, hk]
    | cons b t =>
      have hb : isDigit b = false := hnext b t rfl
      simp [digits12, ha, hb, hk]
  · obtain ⟨a, b, rfl⟩ := List.length_eq_two.mp h2
    have ha : isDigit a = true := hd a (by simp)
    have hb : isDigit b = true := hd b (by simp)
    simp [digits12, ha, hb, hk]

theorem digits2_sound (k : QString → Option QString) (s r : QString)
    (h : digits2 k s = some r) :
    ∃ ss s1, (ss.length = 2 ∧ ∀ c ∈ ss, isDigit c = true) ∧ s = ss ++ s1 ∧ k s1 = some r := by
  unfold digits2 at h
  split at h
  · rename_i a b t
    by_cases hab : (isDigit a && isDigit b) = true
    · rw [if_pos hab] at h
      rw [Bool.and_eq_true] at hab
      exact ⟨[a, b], t, ⟨rfl, by simp [hab.1, hab.2]⟩, rfl, h⟩
    · rw [if_neg hab] at h; simp at h
  · simp at h

theorem digits2_complete (k : QString → Option QString) (ss s1 r : QString)
    (hs : ss.length = 2 ∧ ∀ c ∈ ss, isDigit c = true) (hk : k s1 = some r) :
    digits2 k (ss ++ s1) = some r := by
  obtain ⟨hlen, hd⟩ := hs
  obtain ⟨a, b, rfl⟩ := List.length_eq_two.mp hlen
  have ha : isDigit a = true := hd a (by simp)
  have hb : isDigit b = true := hd b (by simp)
  simp [digits2, ha, hb, hk]

theorem fractionAndClose_sound (s r : QString) (h : fractionAndClose s = some r) :
    ∃ f, (f = [] ∨ ∃ d, IsDigits12 d ∧ f = '.' :: d) ∧ s = f ++ ']' :: r := by
  unfold fractionAndClose at h
  cases hg : (lit '.' s).bind (digits12 (lit ']')) with
  | some out =>
    rw [hg] at h
    have hout : out = r := by simpa using h
    subst hout
    obtain ⟨s1, h1, h2⟩ := Option.bind_eq_some.mp hg
    obtain ⟨d, s2, hd, hs2, hk⟩ := digits12_sound _ _ _ h2
    rw [lit_eq_some] at h1 hk
    exact ⟨'.' :: d, Or.inr ⟨d, hd, rfl⟩, by rw [h1, hs2, hk]; simp⟩
  | none =>
    rw [hg] at h
    rw [lit_eq_some] at h
    exact ⟨[], Or.inl rfl, by rw [h]; rfl⟩

theorem fractionAndClose_complete (f r : QString)
    (hf : f = [] ∨ ∃ d, IsDigits12 d ∧ f = '.' :: d) :
    fractionAndClose (f ++ ']' :: r) = some r := by
  unfold fractionAndClose
  rcases hf with rfl | ⟨d, hd, rfl⟩
  · have : lit '.' ([] ++ ']' :: r) = none := by simp [lit]
    rw [this]
    simp [lit]
  · have h1 : lit '.' ('.' :: d ++ ']' :: r) = some (d ++ ']' :: r) := by simp [lit]
    have h2 : digits12 (lit ']') (d ++ ']' :: r) = some r :=
      digits12_complete _ d _ r hd (lit_cons_self _ _)
        (fun b t e => by
          have : b = ']' := by injection e with e1 _; exact e1.symm
          rw [this]; decide)
    rw [h1, Option.some_bind, h2]

theorem matchTag_sound (s r : QString) (h : matchTag s = some r) :
    ∃ t, IsTag t ∧ s = t ++ r := by
  unfold matchTag at h
  obtain ⟨s0, h0, h1⟩ := Option.bind_eq_some.mp h
  rw [lit_eq_some] at h0
  obtain ⟨m, s1, hm, hs1, hk1⟩ := digits12_sound _ _ _ h1
  obtain ⟨s2, h2, h3⟩ := Option.bind_eq_some.mp hk1
  rw [lit_eq_some] at h2
  obtain ⟨ss, s3, hss, hs3, hk3⟩ := digits2_sound _ _ _ h3
  obtain ⟨f, hf, hs4⟩ := fractionAndClose_sound _ _ hk3
  refine ⟨'[' :: m ++ ':' :: ss ++ f ++ [']'], ⟨m, ss, f, hm, hss, hf, rfl⟩, ?_⟩
  rw [h0, hs1, h2, hs3, hs4]
  simp

theorem matchTag_complete (t r : QString) (ht : IsTag t) : matchTag (t ++ r) = some r := by
  obtain ⟨m, ss, f, hm, hss, hf, rfl⟩ := ht
  unfold matchTag
  have e : ('[' :: m ++ ':' :: ss ++ f ++ [']']) ++ r
      = '[' :: (m ++ ':' :: (ss ++ (f ++ ']' :: r))) := by simp
  rw [e, lit_cons_self, Option.some_bind]
  apply digits12_complete _ m _ r hm
  · rw [lit_cons_self, Option.some_bind]
    exact digits2_complete _ ss _ r hss (fractionAndClose_complete f r hf)
  · intro b t e
    have : b = ':' := by injection e with e1 _; exact e1.symm
    rw [this]; decide

theorem matchTag_none_of_ne (c : Char) (cs : QString) (h : c ≠ '[') :
    matchTag (c :: cs) = none := by
  unfold matchTag
  have : lit '[' (c :: cs) = none := by simp [lit, h]
  rw [this]; rfl

theorem isTag_ne_nil (t : QString) (ht : IsTag t) : ∃ t1, t = '[' :: t1 := by
  obtain ⟨m, ss, f, _, _, _, rfl⟩ := ht
  exact ⟨m ++ ':' :: ss ++ f ++ [']'], by simp⟩

theorem removeTagsFrom_skip (pre rest : QString) :
    removeTagsFrom pre.length (pre ++ rest) = removeTagsFrom 0 rest := by
  induction pre with
  | nil => rfl
  | cons a l ih =>
    rw [List.length_cons, List.cons_append, removeTagsFrom]
    exact ih

theorem removeTagsFrom_tag (t rest : QString) (ht : IsTag t) :
    removeTagsFrom 0 (t ++ rest) = removeTagsFrom 0 rest := by
  have hm := matchTag_complete t rest ht
  obtain ⟨t1, rfl⟩ := isTag_ne_nil t ht
  rw [List.cons_append] at hm ⊢
  rw [removeTagsFrom, hm]
  have e : ('[' :: (t1 ++ rest)).length - rest.length - 1 = t1.length := by
    simp only [List.length_cons, List.length_append]; omega
  simp only [e]
  exact removeTagsFrom_skip t1 rest

theorem removeTagsFrom_segment (t rest : QString) (ht : '[' ∉ t) :
    removeTagsFrom 0 (t ++ rest) = t ++ removeTagsFrom 0 rest := by
  induction t with
  | nil => rfl
  | cons c cs ih =>
    have hc : c ≠ '[' := fun e => ht (e ▸ List.mem_cons_self _ _)
    have hcs : '[' ∉ cs := fun h => ht (List.mem_cons_of_mem _ h)
    rw [List.cons_append, removeTagsFrom, matchTag_none_of_ne c _ hc]
    simp only [List.cons_append]
    rw [ih hcs]

theorem cleanLyricsText_pieces (ps : List Piece) (h : ∀ p ∈ ps, p.WellFormed) :
    cleanLyricsText (piecesText ps) = piecesSegments ps := by
  unfold cleanLyricsText
  induction ps with
  | nil => rfl
  | cons p ps ih =>
    have hp := h p (List.mem_cons_self _ _)
    have hps := ih (fun q hq => h q (List.mem_cons_of_mem _ hq))
    cases p with
    | segment t =>
      simp only [piecesText, piecesSegments, Piece.text]
      rw [removeTagsFrom_segment t _ hp, hps]
    | tag t =>
      simp only [piecesText, piecesSegments, Piece.text]
      rw [removeTagsFrom_tag t _ hp, hps]

theorem piecesSegments_no_bracket (ps : List Piece) (h : ∀ p ∈ ps, p.WellFormed) :
    '[' ∉ piecesSegments ps := by
  induction ps with
  | nil => simp [piecesSegments]
  | cons p ps ih =>
    have hp := h p (List.mem_cons_self _ _)
    have hps := ih (fun q hq => h q (List.mem_cons_of_mem _ hq))
    cases p with
    | segment t =>
      simp only [piecesSegments, List.mem_append, not_or]
      exact ⟨hp, hps⟩
    | tag t => simpa [piecesSegments] using hps

theorem cleanLyricsText_of_no_tag (s : QString) (h : ¬ ContainsTag s) :
    cleanLyricsText s = s := by
  unfold cleanLyricsText
  induction s with
  | nil => rfl
  | cons c cs ih =>
    have hnone : matchTag (c :: cs) = none := by
      cases hm : matchTag (c :: cs) with
      | none => rfl
      | some r =>
        exfalso
        obtain ⟨t, ht, e⟩ := matchTag_sound _ _ hm
        exact h ⟨[], t, r, ht, by rw [e]; rfl⟩
    have hcs : ¬ ContainsTag cs := by
      rintro ⟨pre, t, post, ht, e⟩
      exact h ⟨c :: pre, t, post, ht, by rw [e]; rfl⟩
    rw [removeTagsFrom, hnone]
    simp only
    rw [ih hcs]

theorem not_containsTag_of_no_bracket (s : QString) (h : '[' ∉ s) : ¬ ContainsTag s := by
  rintro ⟨pre, t, post, ht, e⟩
  obtain ⟨t1, rfl⟩ := isTag_ne_nil t ht
  apply h
  rw [e]
  simp

theorem not_containsTag_of_no_match (s : QString)
    (h : ∀ i, i < s.length → matchTag (s.drop i) = none) : ¬ ContainsTag s := by
  rintro ⟨pre, t, post, ht, e⟩
  obtain ⟨t1, ht1⟩ := isTag_ne_nil t ht
  have hlt : pre.length < s.length := by
    rw [e, ht1]; simp only [List.length_append, List.length_cons]; omega
  have hm := h pre.length hlt
  rw [e, List.append_assoc, List.drop_left, matchTag_complete t post ht] at hm
  exact absurd hm (by simp)

theorem demoLyrics_wellFormed : ∀ p ∈ demoLyrics, p.WellFormed := by
  intro p hp
  simp only [demoLyrics, List.mem_cons, List.mem_singleton, List.not_mem_nil, or_false] at hp
  rcases hp with rfl | rfl | rfl | rfl
  · exact ⟨"01".toList, "23".toList, ".45".toList,
      ⟨Or.inr rfl, by decide⟩, ⟨rfl, by decide⟩,
      Or.inr ⟨"45".toList, ⟨Or.inr rfl, by decide⟩, rfl⟩, rfl⟩
  · show '[' ∉ "Hello\n".toList
    decide
  · exact ⟨"2".toList, "00".toList, [],
      ⟨Or.inl rfl, by decide⟩, ⟨rfl, by decide⟩, Or.inl rfl, rfl⟩
  · show '[' ∉ "World".toList
    decide

/-! ## C15: tags removed, text kept -/

/-- C15: for every text built by interleaving segments that contain no `[` with
well-formed timestamp tags, `cleanLyricsText` returns the concatenation of the segments in
order, line breaks included; the text `[01:23.45]Hello`, line break, `[2:00]World`
becomes `Hello`, line break, `World`. -/
theorem cleanLyricsText_spec (ps : List Piece) (h : ∀ p ∈ ps, p.WellFormed) :
    cleanLyricsText (piecesText ps) = piecesSegments ps ∧
    cleanLyricsText "[01:23.45]Hello\n[2:00]World".toList = "Hello\nWorld".toList :=
  ⟨cleanLyricsText_pieces ps h, by decide⟩

/-- C15 at the text of the specification, given as its four pieces. -/
theorem cleanLyricsText_spec_witness :
    (∀ p ∈ demoLyrics, p.WellFormed) ∧
    piecesText demoLyrics = "[01:23.45]Hello\n[2:00]World".toList ∧
    cleanLyricsText (piecesText demoLyrics) = "Hello\nWorld".toList :=
  ⟨demoLyrics_wellFormed, by decide, (cleanLyricsText_spec demoLyrics demoLyrics_wellFormed).1⟩

/-! ## C16: what the cleaned text can still hold -/

/-- C16 as stated fails: in `[1[0:00]:23]` the only match is the inner `[0:00]`; once it
is removed the output is `[1:23]`, which is itself a well-formed tag, and cleaning the
output again changes it. -/
theorem cleanLyricsText_can_leave_tag :
    cleanLyricsText "[1[0:00]:23]".toList = "[1:23]".toList ∧
    IsTag "[1:23]".toList ∧
    ContainsTag (cleanLyricsText "[1[0:00]:23]".toList) ∧
    cleanLyricsText (cleanLyricsText "[1[0:00]:23]".toList)
      ≠ cleanLyricsText "[1[0:00]:23]".toList := by
  have htag : IsTag "[1:23]".toList :=
    ⟨"1".toList, "23".toList, [], ⟨Or.inl rfl, by decide⟩, ⟨rfl, by decide⟩, Or.inl rfl, rfl⟩
  refine ⟨by decide, htag, ⟨[], "[1:23]".toList, [], htag, by decide⟩, by decide⟩

/-- C16, amended: a text that contains no substring matching the timestamp-tag pattern is
returned unchanged by `cleanLyricsText`; and for a text built by interleaving segments
that contain no `[` with well-formed tags, the output contains no substring matching the
pattern, so cleaning it again changes nothing. -/
theorem cleanLyricsText_fixed (s : QString) (ps : List Piece)
    (hs : ¬ ContainsTag s) (hps : ∀ p ∈ ps, p.WellFormed) :
    cleanLyricsText s = s ∧
    ¬ ContainsTag (cleanLyricsText (piecesText ps)) ∧
    cleanLyricsText (cleanLyricsText (piecesText ps)) = cleanLyricsText (piecesText ps) := by
  have hno : ¬ ContainsTag (cleanLyricsText (piecesText ps)) := by
    rw [cleanLyricsText_pieces ps hps]
    exact not_containsTag_of_no_bracket _ (piecesSegments_no_bracket ps hps)
  exact ⟨cleanLyricsText_of_no_tag s hs, hno, cleanLyricsText_of_no_tag _ hno⟩

/-- C16 (amended) at concrete texts: `1:23] and [4:5]` holds no well-formed tag and is
returned as it is; the cleaned text of the specification holds no tag and is a fixed
point. -/
theorem cleanLyricsText_fixed_witness :
    (¬ ContainsTag "1:23] and [4:5]".toList ∧ ∀ p ∈ demoLyrics, p.WellFormed) ∧
    cleanLyricsText "1:23] and [4:5]".toList = "1:23] and [4:5]".toList ∧
    ¬ ContainsTag (cleanLyricsText (piecesText demoLyrics)) ∧
    cleanLyricsText (cleanLyricsText (piecesText demoLyrics))
      = cleanLyricsText (piecesText demoLyrics) :=
  ⟨⟨not_containsTag_of_no_match _ (by decide), demoLyrics_wellFormed⟩,
    cleanLyricsText_fixed "1:23] and [4:5]".toList demoLyrics
      (not_containsTag_of_no_match _ (by decide)) demoLyrics_wellFormed⟩

theorem escape_eq_nil (q : QString) : escape q = [] ↔ q = [] := by
  cases q with
  | nil => simp [escape]
  | cons c cs =>
    simp only [escape, List.append_eq_nil, reduceCtorEq, iff_false, not_and]
    intro h
    split_ifs at h

theorem readFrom_plain_cons (c : Char) (cs : QString) :
    readFrom ReadState.plain (c :: cs)
      = if c = Char.ofNat 92 then readFrom ReadState.afterBackslash cs
        else if isWordChar c then (readFrom ReadState.plain cs).map (fun l => c :: l)
        else none := by
  rw [readFrom]

theorem readFrom_octal_of_not_digit (code left : Nat) (l : QString)
    (h : ∀ c cs, l = c :: cs → isOctalDigit c = false) :
    readFrom (ReadState.octal code left) l
      = (readFrom ReadState.plain l).map (fun r => Char.ofNat code :: r) := by
  cases l with
  | nil => simp [readFrom]
  | cons c cs =>
    have hc := h c cs rfl
    rw [readFrom_plain_cons]
    simp only [readFrom, hc, Bool.false_eq_true, and_false, if_false]

theorem escape_head_not_octal (q : QString)
    (h : ∀ c cs, q = c :: cs → isOctalDigit c = false) :
    ∀ c cs, escape q = c :: cs → isOctalDigit c = false := by
  intro c cs he
  cases q with
  | nil => simp [escape] at he
  | cons a rest =>
    have ha := h a rest rfl
    unfold escape at he
    split_ifs at he with h0 hw
    · simp only [List.cons_append, List.nil_append, List.cons.injEq] at he
      rw [← he.1]; decide
    · simp only [List.cons_append, List.nil_append, List.cons.injEq] at he
      rw [← he.1]; exact ha
    · simp only [List.cons_append, List.nil_append, List.cons.injEq] at he
      rw [← he.1]; decide

theorem isWordChar_ne_backslash (c : Char) (h : isWordChar c = true) : c ≠ Char.ofNat 92 := by
  intro e
  rw [e] at h
  exact absurd h (by decide)

theorem readFrom_escape (q : QString) (h : nullBeforeOctal q = false) :
    readFrom ReadState.plain (escape q) = some q := by
  induction q with
  | nil => rfl
  | cons a rest ih =>
    unfold nullBeforeOctal at h
    rw [Bool.or_eq_false_iff] at h
    obtain ⟨h1, h2⟩ := h
    have ih' := ih h2
    unfold escape
    split_ifs with h0 hw
    · have hrest : ∀ c cs, rest = c :: cs → isOctalDigit c = false := by
        intro c cs e
        subst e
        simpa [h0] using h1
      have ha : a = Char.ofNat 0 := by
        apply Char.ext
        apply UInt32.ext
        exact h0
      simp only [List.cons_append, List.nil_append]
      rw [readFrom_plain_cons, if_pos rfl, readFrom, if_pos rfl,
        readFrom_octal_of_not_digit 0 2 _ (escape_head_not_octal rest hrest), ih', ha]
      rfl
    · simp only [List.cons_append, List.nil_append]
      rw [readFrom_plain_cons, if_neg (isWordChar_ne_backslash a hw), if_pos hw, ih']
      rfl
    · simp only [List.cons_append, List.nil_append]
      have hna : a.isAlphanum = false := by
        simp only [isWordChar, Bool.or_eq_true, not_or, Bool.not_eq_true] at hw
        exact hw.1
      have hn0 : a ≠ '0' := by
        intro e; rw [e] at hna; exact absurd hna (by decide)
      rw [readFrom_plain_cons, if_pos rfl, readFrom, if_neg hn0, hna, ih']
      rfl

theorem escape_readable_aux (q : QString) :
    (readFrom ReadState.plain (escape q)).isSome = true ∧
    ∀ code left : Nat, (readFrom (ReadState.octal code left) (escape q)).isSome = true := by
  induction q with
  | nil => exact ⟨rfl, fun _ _ => rfl⟩
  | cons a rest ih =>
    obtain ⟨ih1, ih2⟩ := ih
    have hbs : isOctalDigit (Char.ofNat 92) = false := by decide
    have hbw : isWordChar (Char.ofNat 92) = false := by decide
    unfold escape
    split_ifs with h0 hw
    · simp only [List.cons_append, List.nil_append]
      have e : readFrom ReadState.afterBackslash ('0' :: escape rest)
          = readFrom (ReadState.octal 0 2) (escape rest) := by
        rw [readFrom, if_pos rfl]
      refine ⟨?_, fun code left => ?_⟩
      · rw [readFrom_plain_cons, if_pos rfl, e]; exact ih2 0 2
      · rw [readFrom]
        simp only [hbs, Bool.false_eq_true, and_false, if_false, if_true, e,
          Option.isSome_map']
        exact ih2 0 2
    · simp only [List.cons_append, List.nil_append]
      have hne := isWordChar_ne_backslash a hw
      refine ⟨?_, fun code left => ?_⟩
      · rw [readFrom_plain_cons, if_neg hne, if_pos hw, Option.isSome_map']; exact ih1
      · rw [readFrom]
        split_ifs with hd
        · exact ih2 _ _
        · simp only [Option.isSome_map']; exact ih1
    · simp only [List.cons_append, List.nil_append]
      have hna : a.isAlphanum = false := by
        simp only [isWordChar, Bool.or_eq_true, not_or, Bool.not_eq_true] at hw
        exact hw.1
      have hn0 : a ≠ '0' := by
        intro e; rw [e] at hna; exact absurd hna (by decide)
      have e : readFrom ReadState.afterBackslash (a :: escape rest)
          = (readFrom ReadState.plain (escape rest)).map (fun l => a :: l) := by
        rw [readFrom, if_neg hn0, hna]; rfl
      refine ⟨?_, fun code left => ?_⟩
      · rw [readFrom_plain_cons, if_pos rfl, e, Option.isSome_map']; exact ih1
      · rw [readFrom]
        simp only [hbs, Bool.false_eq_true, and_false, if_false, if_true, e,
          Option.isSome_map']
        exact ih1

/-- Every pattern that `escape` writes is read: the expression of the search box is
valid whatever the search text. -/
theorem escape_readable (q : QString) :
    QRegularExpression.isValid { pattern := escape q, caseInsensitive := true } = true :=
  (escape_readable_aux q).1

theorem matchesAt_iff (env : Env) (ci : Bool) (items : List Char) :
    ∀ t : QString, matchesAt env ci items t = true ↔
      ∃ sub post, t = sub ++ post ∧
        List.Forall₂ (fun a b => sameChar env ci a b = true) items sub := by
  induction items with
  | nil =>
    intro t
    simp only [matchesAt, true_iff]
    exact ⟨[], t, rfl, List.Forall₂.nil⟩
  | cons p ps ih =>
    intro t
    cases t with
    | nil =>
      simp only [matchesAt, Bool.false_eq_true, false_iff]
      rintro ⟨sub, post, e, hf⟩
      cases hf with
      | cons h1 h2 => simp at e
    | cons c cs =>
      simp only [matchesAt, Bool.and_eq_true, ih cs]
      constructor
      · rintro ⟨h1, sub, post, e, hf⟩
        exact ⟨c :: sub, post, by rw [e]; rfl, List.Forall₂.cons h1 hf⟩
      · rintro ⟨sub, post, e, hf⟩
        cases hf with
        | cons h1 h2 =>
          simp only [List.cons_append, List.cons.injEq] at e
          rw [e.1]
          exact ⟨h1, _, post, e.2, h2⟩

theorem matchesIn_iff (env : Env) (ci : Bool) (items : List Char) :
    ∀ t : QString, matchesIn env ci items t = true ↔
      ∃ pre sub post, t = pre ++ sub ++ post ∧
        List.Forall₂ (fun a b => sameChar env ci a b = true) items sub := by
  intro t
  induction t with
  | nil =>
    simp only [matchesIn, matchesAt_iff]
    constructor
    · rintro ⟨sub, post, e, hf⟩
      exact ⟨[], sub, post, e, hf⟩
    · rintro ⟨pre, sub, post, e, hf⟩
      have e' := e.symm
      simp only [List.append_eq_nil] at e'
      rw [e'.1.2] at hf
      exact ⟨[], [], rfl, hf⟩
  | cons c cs ih =>
    simp only [matchesIn, Bool.or_eq_true, matchesAt_iff, ih]
    constructor
    · rintro (⟨sub, post, e, hf⟩ | ⟨pre, sub, post, e, hf⟩)
      · exact ⟨[], sub, post, e, hf⟩
      · exact ⟨c :: pre, sub, post, by rw [e]; rfl, hf⟩
    · rintro ⟨pre, sub, post, e, hf⟩
      cases pre with
      | nil => exact Or.inl ⟨sub, post, e, hf⟩
      | cons x pre2 =>
        simp only [List.cons_append, List.cons.injEq] at e
        exact Or.inr ⟨pre2, sub, post, e.2, hf⟩

theorem caseless_iff (env : Env) (a b : Char) :
    env.caseless a b = true ↔ SameIgnoringCase env a b := by
  unfold Env.caseless SameIgnoringCase
  by_cases h : a.toNat < 128 ∧ b.toNat < 128
  · simp [h]
  · have h3 : ¬ (a.toNat < 128 ∧ b.toNat < 128 ∧ a.toLower = b.toLower) :=
      fun h3 => h ⟨h3.1, h3.2.1⟩
    simp [h, h3]

theorem contains_escaped_iff (env : Env) (q t : QString) (h : nullBeforeOctal q = false) :
    contains env t { pattern := escape q, caseInsensitive := true } = true ↔
      OccursCaseless env q t := by
  unfold contains OccursCaseless
  simp only [readFrom_escape q h, matchesIn_iff, sameChar, if_true, caseless_iff]

theorem OccursCaseless_length (env : Env) (q t : QString) (h : OccursCaseless env q t) :
    q.length ≤ t.length := by
  obtain ⟨pre, sub, post, e, hf⟩ := h
  rw [e, hf.length_eq]
  simp only [List.length_append]
  omega

theorem filterAcceptsRow_escaped_iff (env : Env) (q : QString) (row : Row)
    (hq : nullBeforeOctal q = false) :
    filterAcceptsRow env { pattern := escape q, caseInsensitive := true } row = true ↔
      q = [] ∨ OccursCaseless env q row.title ∨ OccursCaseless env q row.artist ∨
        OccursCaseless env q row.lyrics := by
  unfold filterAcceptsRow QRegularExpression.isValid
  simp only [readFrom_escape q hq, Option.isSome_some, Bool.not_true, Bool.false_or]
  by_cases h0 : q = []
  · subst h0; simp [escape]
  · have he : (escape q).isEmpty = false := by
      cases h : escape q with
      | nil => exact absurd ((escape_eq_nil q).mp h) h0
      | cons a l => rfl
    rw [← contains_escaped_iff env q row.title hq, ← contains_escaped_iff env q row.artist hq,
      ← contains_escaped_iff env q row.lyrics hq]
    simp [he, h0]

/-! ## C17: the search filter -/

/-- C17, refuted as stated: for the search text made of a null character and the digit
`1`, `escape` writes a backslash, `0` and `1`, which is read as the octal code 01.  In
every environment a row whose title is the character U+0001 is shown although the search
text occurs in none of its columns, and a row whose title is the search text itself is
hidden. -/
theorem filter_reads_null_and_digit_as_octal :
    escape [Char.ofNat 0, '1'] = [Char.ofNat 92, '0', '1'] ∧
    readFrom ReadState.plain (escape [Char.ofNat 0, '1']) = some [Char.ofNat 1] ∧
    ∀ env : Env,
      filterAcceptsRow env (searchTextChanged demoWindow [Char.ofNat 0, '1']).filter
        controlRow = true ∧
      ¬ ([Char.ofNat 0, '1'] = [] ∨
        OccursCaseless env [Char.ofNat 0, '1'] controlRow.title ∨
        OccursCaseless env [Char.ofNat 0, '1'] controlRow.artist ∨
        OccursCaseless env [Char.ofNat 0, '1'] controlRow.lyrics) ∧
      filterAcceptsRow env (searchTextChanged demoWindow [Char.ofNat 0, '1']).filter
        nullRow = false ∧
      OccursCaseless env [Char.ofNat 0, '1'] nullRow.title := by
  refine ⟨by decide, by decide, fun env => ⟨rfl, ?_, rfl, ?_⟩⟩
  · rintro (h | h | h | h)
    · exact absurd h (by decide)
    · have := OccursCaseless_length env _ _ h
      exact absurd this (by decide)
    · have := OccursCaseless_length env _ _ h
      exact absurd this (by decide)
    · have := OccursCaseless_length env _ _ h
      exact absurd this (by decide)
  · refine ⟨[], [Char.ofNat 0, '1'], [], rfl, ?_⟩
    exact List.Forall₂.cons (Or.inl rfl) (List.Forall₂.cons (Or.inl rfl) List.Forall₂.nil)

/-- C17, amended: for every search text `q` in which no null character is directly
followed by an octal digit, the pattern that the search box builds with `escape` is read
as the characters of `q` themselves (no character of `q` acts as an operator), and once
the search text is `q` a row is visible iff `q` is empty or `q` occurs as a literal
string, compared case-insensitively, inside the title, the artist or the lyrics; the path
column is not searched; and changing the search text changes neither the playlist, nor
the rows or their order: the visible rows are the accepted rows in the order of the
source model. -/
theorem filter_spec (env : Env) (q : QString) (row : Row) (w : Window)
    (hq : nullBeforeOctal q = false) :
    ((searchTextChanged w q).filter.pattern = escape q ∧
      (searchTextChanged w q).filter.caseInsensitive = true ∧
      (searchTextChanged w q).filter.isValid = true ∧
      readFrom ReadState.plain (escape q) = some q) ∧
    (filterAcceptsRow env (searchTextChanged w q).filter row = true ↔
      q = [] ∨ OccursCaseless env q row.title ∨ OccursCaseless env q row.artist ∨
        OccursCaseless env q row.lyrics) ∧
    (∀ p : QString,
      filterAcceptsRow env (searchTextChanged w q).filter { row with path := p }
        = filterAcceptsRow env (searchTextChanged w q).filter row) ∧
    ((searchTextChanged w q).player = w.player ∧ (searchTextChanged w q).rows = w.rows) ∧
    (visibleRows env (searchTextChanged w q)).Sublist w.rows ∧
    (∀ r : Row, r ∈ visibleRows env (searchTextChanged w q) ↔
      r ∈ w.rows ∧
        (q = [] ∨ OccursCaseless env q r.title ∨ OccursCaseless env q r.artist ∨
          OccursCaseless env q r.lyrics)) := by
  refine ⟨⟨rfl, rfl, escape_readable q, readFrom_escape q hq⟩,
    filterAcceptsRow_escaped_iff env q row hq,
    fun p => rfl, ⟨rfl, rfl⟩, List.filter_sublist _, ?_⟩
  intro r
  unfold visibleRows searchTextChanged
  rw [List.mem_filter]
  exact and_congr_right (fun _ => filterAcceptsRow_escaped_iff env q r hq)

/-- C17 at a concrete table: the search text `PUNK` shows the row whose artist is
`Daft Punk` and not the row that has `punk` only in its path; the search text `.*`
shows no row; the search text `émile` shows the row titled `Émile`; the playlist is
untouched. -/
theorem filter_spec_witness :
    nullBeforeOctal "free".toList = false ∧
    (visibleRows demoEnv (searchTextChanged demoWindow "PUNK".toList)).map Row.path
      = ["a.wav".toList] ∧
    visibleRows demoEnv (searchTextChanged demoWindow ".*".toList) = [] ∧
    (visibleRows demoEnv
        (searchTextChanged demoWindow ([Char.ofNat 0xE9] ++ "mile".toList))).map Row.path
      = ["c.wav".toList] ∧
    (searchTextChanged demoWindow ".*".toList).player = demoWindow.player ∧
    readFrom ReadState.plain (escape "free".toList) = some "free".toList ∧
    (filterAcceptsRow demoEnv (searchTextChanged demoWindow "free".toList).filter
        { title := "One More Time".toList, artist := "Daft Punk".toList,
          lyrics := "music has got me feeling so free".toList, path := "a.wav".toList } = true ↔
      "free".toList = [] ∨
        OccursCaseless demoEnv "free".toList "One More Time".toList ∨
        OccursCaseless demoEnv "free".toList "Daft Punk".toList ∨
        OccursCaseless demoEnv "free".toList "music has got me feeling so free".toList) :=
  have h := filter_spec demoEnv "free".toList
    { title := "One More Time".toList, artist := "Daft Punk".toList,
      lyrics := "music has got me feeling so free".toList, path := "a.wav".toList }
    demoWindow (by decide)
  ⟨by decide, by decide, by decide, by decide, rfl, h.1.2.2.2, h.2.1⟩

end MusicPlayer
